import Mathlib

/-!
# Verification of the multibot multi-repository orchestration core

This file gives a shallow embedding of `lib/repos.js` (the change-synthesis
and multi-repository orchestration engine): the `read`, `branch`, `commit`,
`pull-request` and `branch-to-pr` actions, the per-item steps they fan out
over, and the remote calls they issue.

The remote GitHub client is modelled as an environment `Env` of response
functions; every step returns the list of remote `Call`s it issues together
with its `Except`-result, mirroring the callback-error discipline of the
source.  `async.map` over a list is modelled by `mapStage`: all items issue
their calls (parallel fan-out, no cancellation) and the aggregate result is
the first error if any item fails.  `async.auto` staging is modelled by
guarding each stage on the success of its declared dependencies, exactly as
in `_branch` and `_commit`.
-/

namespace Multibot

/-- One addressable entry of a git tree object, as returned by `getTree` and
as posted to `createTree`. -/
structure TreeEntry where
  path : String
  mode : String
  type : String
  sha : String
  deriving Repr, DecidableEq

/-- A remote API call issued by the core.  Mutating calls are `createRef`,
`createBlob`, `createTree`, `createCommit`, `updateRef`,
`createPullRequest`. -/
inductive Call where
  | getContent (repo file ref : String)
  | getRef (repo refName : String)
  | createRef (repo refName sha : String)
  | createBlob (repo : String) (content : Option String)
  | getTree (repo sha : String)
  | createTree (repo : String) (entries : List TreeEntry) (baseTree : Option String)
  | createCommit (repo msg : String) (treeSha : Option String) (parentSha : String)
  | updateRef (repo refName : String) (sha : Option String) (force : Bool)
  | createPullRequest (repo title body base head : String)
  deriving Repr, DecidableEq

/-- Response of `repos.getContent`: not-found is a signal, not a failure. -/
inductive ContentResp where
  | notFound
  | err (msg : String)
  | ok (content sha : String)
  deriving Repr, DecidableEq

/-- Response of `gitdata.getReference`. -/
inductive RefResp where
  | notFound
  | err (msg : String)
  | ok (sha : String)
  deriving Repr, DecidableEq

/-- Result delivered by the caller-supplied transform callback
`(transformErr, newContent)`. -/
inductive TransformResp where
  | err (msg : String)
  | ok (newContent : Option String)
  deriving Repr, DecidableEq

/-- Response of `pullRequests.create`: `alreadyExists` models the forge
rejection whose first error message starts with
"A pull request already exists for". -/
inductive PrResp where
  | alreadyExists
  | err (msg : String)
  | ok (htmlUrl headSha : String)
  deriving Repr, DecidableEq

/-- The remote object client plus the caller-supplied transform, as a pure
response environment.  Arguments follow the order of the source calls. -/
structure Env where
  contentResp : String → String → String → ContentResp
  refResp : String → String → RefResp
  createRefResp : String → String → String → Except String String
  createBlobResp : String → Option String → Except String String
  treeResp : String → String → Except String (List TreeEntry × Bool)
  createTreeResp : String → List TreeEntry → Option String → Except String String
  createCommitResp : String → String → Option String → String → Except String String
  updateRefResp : String → String → Option String → Except String String
  prResp : String → String → String → String → String → PrResp
  transform : String → String → Option String → TransformResp

/-- The member state captured from `argv` in the `Repos` constructor. -/
structure Config where
  repos : List String
  files : List String
  branchSrc : String
  branchDest : String
  allowExisting : Bool
  dryRun : Bool
  msg : String
  title : String
  deriving Repr, DecidableEq

/-- One (repo, file) pair of the read cross product. -/
structure Lookup where
  repo : String
  file : String
  deriving Repr, DecidableEq

/-- A per-file result of `_read`:
`{ repo, file, branch: {src}, content: {orig, new, create, update, delete},
commit: {sha} }`.  `branchDest` is `none` until `_commit` splices it in. -/
structure FileData where
  repo : String
  file : String
  branchSrc : String
  branchDest : Option String
  contentOrig : Option String
  contentNew : Option String
  contentCreate : Bool
  contentUpdate : Bool
  contentDelete : Bool
  commitSha : Option String
  deriving Repr, DecidableEq

/-- A per-file result of `postDestBlobs`: `{ blob, posted: {created, sha} }`. -/
structure BlobPost where
  blob : FileData
  created : Bool
  sha : Option String
  deriving Repr, DecidableEq

/-- A per-repo result of `getSrcRefs` in `_branch`. -/
structure SrcRefInfo where
  repo : String
  sha : String
  deriving Repr, DecidableEq

/-- A per-repo result of `getDestRefs` in `_branch`. -/
structure DestRefInfo where
  repo : String
  refExists : Bool
  sha : Option String
  deriving Repr, DecidableEq

/-- A per-repo result of `createDestRefs` in `_branch` (the `mkData` shape). -/
structure BranchData where
  repo : String
  branchSrc : String
  branchDest : String
  destExists : Bool
  commitSha : Option String
  deriving Repr, DecidableEq

/-- A per-repo result of `getSrcTrees` in `_commit`:
`{ repo, ref, tree, hasDelete }`. -/
structure SrcTree where
  repo : String
  ref : String
  tree : Option (List TreeEntry)
  hasDelete : Bool
  deriving Repr, DecidableEq

/-- A per-repo result of `_updateTree` / `_createTree`. -/
structure DestTree where
  repo : String
  entries : List TreeEntry
  parentSha : String
  sha : Option String
  isNoop : Bool
  deriving Repr, DecidableEq

/-- A per-repo result of `postDestCommits`. -/
structure DestCommit where
  repo : String
  parentSha : String
  sha : Option String
  isNoop : Bool
  deriving Repr, DecidableEq

/-- A per-repo result of `updateBranch`. -/
structure BranchUpdate where
  repo : String
  data : Option String
  isNoop : Bool
  deriving Repr, DecidableEq

/-- A per-repo result of `_pullRequest`. -/
structure PrData where
  repo : String
  branchSrc : String
  branchDest : String
  url : Option String
  prExists : Bool
  commitSha : Option String
  deriving Repr, DecidableEq

/-- A step is the calls it issues plus its callback result. -/
abbrev Step (β : Type) := List Call × Except String β

/-- Whether a callback result is a success. -/
def resultOk : Except String β → Bool
  | Except.ok _ => true
  | Except.error _ => false

/-- `async.map` result collection: the aggregate succeeds only if every item
succeeded; otherwise the first error (in item order) is reported. -/
def collectExcept : List (Except String β) → Except String (List β)
  | [] => Except.ok []
  | Except.error e :: _ => Except.error e
  | Except.ok b :: rest =>
    match collectExcept rest with
    | Except.error e => Except.error e
    | Except.ok bs => Except.ok (b :: bs)

/-- `async.map f xs`: every item is dispatched (all calls are issued,
parallel fan-out without cancellation), and the aggregate result fails if
any item fails. -/
def mapStage (f : α → Step β) (xs : List α) : Step (List β) :=
  (((xs.map f).map Prod.fst).flatten, collectExcept ((xs.map f).map Prod.snd))

/-- The (repo × file) cross product built by `_read`
(`repos.reduce(concat(files.map(...)))`). -/
def lookups (cfg : Config) : List Lookup :=
  (cfg.repos.map (fun repo => cfg.files.map (fun file => ⟨repo, file⟩))).flatten

/-- One item of `_read`: fetch content at `branchSrc` (not-found maps to
`origContent = null`), apply the transform, reject simultaneous
create + delete, and classify the result. -/
def readItem (env : Env) (branchSrc : String) (lk : Lookup) : Step FileData :=
  ([Call.getContent lk.repo lk.file branchSrc],
    match env.contentResp lk.repo lk.file branchSrc with
    | ContentResp.err m => Except.error m
    | resp =>
      let origContent : Option String :=
        match resp with
        | ContentResp.ok c _ => some c
        | _ => none
      let resSha : Option String :=
        match resp with
        | ContentResp.ok _ s => some s
        | _ => none
      match env.transform lk.repo lk.file origContent with
      | TransformResp.err m => Except.error m
      | TransformResp.ok newContent =>
        if origContent.isNone && newContent.isNone then
          Except.error "Cannot have both create + delete"
        else
          Except.ok
            { repo := lk.repo
              file := lk.file
              branchSrc := branchSrc
              branchDest := none
              contentOrig := origContent
              contentNew := newContent
              contentCreate := origContent.isNone
              contentUpdate :=
                origContent.isSome && newContent.isSome && (origContent != newContent)
              contentDelete := newContent.isNone
              commitSha := resSha })

/-- `_read`: parallel fan-out over the (repo × file) cross product. -/
def readStage (env : Env) (cfg : Config) (branchSrc : String) : Step (List FileData) :=
  mapStage (readItem env branchSrc) (lookups cfg)

/-- The `read` action reads from `--branch-src`. -/
def readAction (env : Env) (cfg : Config) : Step (List FileData) :=
  readStage env cfg cfg.branchSrc

/-- One item of `getSrcRefs` in `_branch`: any error (including 404) is
fatal for the item. -/
def getSrcRefItem (env : Env) (branchSrcFull : String) (repo : String) : Step SrcRefInfo :=
  ([Call.getRef repo branchSrcFull],
    match env.refResp repo branchSrcFull with
    | RefResp.ok sha => Except.ok ⟨repo, sha⟩
    | RefResp.notFound => Except.error "Not Found"
    | RefResp.err m => Except.error m)

/-- One item of `getDestRefs` in `_branch`: 404 means "does not exist";
an existing destination branch errors unless `allowExisting`. -/
def getDestRefItem (env : Env) (cfg : Config) (branchDestFull : String) (repo : String) :
    Step DestRefInfo :=
  ([Call.getRef repo branchDestFull],
    match env.refResp repo branchDestFull with
    | RefResp.notFound => Except.ok ⟨repo, false, none⟩
    | RefResp.err m => Except.error m
    | RefResp.ok sha =>
      if !cfg.allowExisting then
        Except.error ("Found existing dest branch in repo: " ++ repo ++ " with sha: " ++ sha)
      else
        Except.ok ⟨repo, true, some sha⟩)

/-- The `mkData` helper of `createDestRefs`. -/
def mkBranchData (branchSrc branchDest repo : String) (destExists : Bool)
    (sha : Option String) : BranchData :=
  { repo := repo
    branchSrc := branchSrc
    branchDest := branchDest
    destExists := destExists
    commitSha := sha }

/-- One item of `createDestRefs` in `_branch`: correlate the resolved src and
dest refs, no-op on an allowed existing branch, sentinel on dry-run,
otherwise create the ref at the source head sha. -/
def createDestRefItem (env : Env) (cfg : Config) (branchDestFull : String)
    (srcRefs : List SrcRefInfo) (destRefs : List DestRefInfo) (repo : String) :
    Step BranchData :=
  match srcRefs.find? (fun o => o.repo == repo) with
  | none => ([], Except.error ("No source object for repo: " ++ repo))
  | some srcObj =>
    match destRefs.find? (fun o => o.repo == repo) with
    | none => ([], Except.error ("No destination object for repo: " ++ repo))
    | some destObj =>
      if destObj.refExists then
        ([], Except.ok (mkBranchData cfg.branchSrc cfg.branchDest repo true destObj.sha))
      else if cfg.dryRun then
        ([], Except.ok (mkBranchData cfg.branchSrc cfg.branchDest repo false
          (some "DRY_RUN_CREATE_BRANCH_REF_SHA")))
      else
        let refName := "refs/" ++ branchDestFull
        let call := Call.createRef repo refName srcObj.sha
        match env.createRefResp repo refName srcObj.sha with
        | Except.error m => ([call], Except.error m)
        | Except.ok resSha =>
          ([call], Except.ok (mkBranchData cfg.branchSrc cfg.branchDest repo false
            (some resSha)))

/-- The `getSrcRefs` stage of `_branch`. -/
def branchGetSrcRefs (env : Env) (cfg : Config) : Step (List SrcRefInfo) :=
  mapStage (getSrcRefItem env ("heads/" ++ cfg.branchSrc)) cfg.repos

/-- The `getDestRefs` stage of `_branch`. -/
def branchGetDestRefs (env : Env) (cfg : Config) : Step (List DestRefInfo) :=
  mapStage (getDestRefItem env cfg ("heads/" ++ cfg.branchDest)) cfg.repos

/-- The `createDestRefs` stage of `_branch`: it runs only after both
`getSrcRefs` and `getDestRefs` have fully succeeded — `async.auto` never
starts a task whose dependency failed. -/
def branchCreateDestRefs (env : Env) (cfg : Config) : Step (List BranchData) :=
  match (branchGetSrcRefs env cfg).2, (branchGetDestRefs env cfg).2 with
  | Except.ok srcRefs, Except.ok destRefs =>
    mapStage (createDestRefItem env cfg ("heads/" ++ cfg.branchDest) srcRefs destRefs)
      cfg.repos
  | Except.error e, _ => ([], Except.error e)
  | _, Except.error e => ([], Except.error e)

/-- `_branch`: `getSrcRefs` and `getDestRefs` both run (all their reads are
issued); the result is `createDestRefs`'s data. -/
def branchInternal (env : Env) (cfg : Config) : Step (List BranchData) :=
  ((branchGetSrcRefs env cfg).1 ++ (branchGetDestRefs env cfg).1
      ++ (branchCreateDestRefs env cfg).1,
    (branchCreateDestRefs env cfg).2)

/-- One item of `postDestBlobs` in `_commit`: POST a new blob for a create or
update, sentinel on dry-run, nothing for no-op / delete. -/
def postDestBlobItem (env : Env) (cfg : Config) (blob : FileData) : Step BlobPost :=
  if blob.contentCreate || blob.contentUpdate then
    if cfg.dryRun then
      ([], Except.ok ⟨blob, true, some "DRY_RUN_POST_BLOB_SHA"⟩)
    else
      let call := Call.createBlob blob.repo blob.contentNew
      match env.createBlobResp blob.repo blob.contentNew with
      | Except.error m => ([call], Except.error m)
      | Except.ok sha => ([call], Except.ok ⟨blob, true, some sha⟩)
  else
    ([], Except.ok ⟨blob, false, none⟩)

/-- `hasDelete` for a repo: some read result for this repo is a delete. -/
def hasDeleteFor (srcBlobs : List FileData) (repo : String) : Bool :=
  decide (0 < (srcBlobs.filter (fun b => b.repo == repo && b.contentDelete == true)).length)

/-- One item of `getSrcTrees` in `_commit`: resolve the destination ref; with
a delete present additionally fetch the full recursive tree, erroring on a
truncated listing. -/
def getSrcTreeItem (env : Env) (branchDestFull : String) (srcBlobs : List FileData)
    (repo : String) : Step SrcTree :=
  let hasDelete := hasDeleteFor srcBlobs repo
  let refCall := Call.getRef repo branchDestFull
  match env.refResp repo branchDestFull with
  | RefResp.err m => ([refCall], Except.error m)
  | RefResp.notFound => ([refCall], Except.error "Not Found")
  | RefResp.ok ref =>
    if !hasDelete then
      ([refCall], Except.ok ⟨repo, ref, none, false⟩)
    else
      let treeCall := Call.getTree repo ref
      match env.treeResp repo ref with
      | Except.error m => ([refCall, treeCall], Except.error m)
      | Except.ok (tr, truncated) =>
        if truncated then
          ([refCall, treeCall],
            Except.error ("Received truncated tree for: " ++ repo))
        else
          ([refCall, treeCall], Except.ok ⟨repo, ref, some tr, true⟩)

/-- `_blobToPostForm`: convert a posted blob to a tree entry. -/
def blobToPostForm (b : BlobPost) : TreeEntry :=
  ⟨b.blob.file, "100644", "blob", b.sha.getD ""⟩

/-- The `updateTree` list of `_updateTree`: the posted blobs of this repo in
tree-post form. -/
def updateTreeList (destBlobs : List BlobPost) (repo : String) : List TreeEntry :=
  (destBlobs.filter (fun b => b.blob.repo == repo && b.created)).map blobToPostForm

/-- `_updateTree`: sparse tree update against the branch tip as `base_tree`;
an empty update set is a no-op that posts nothing. -/
def updateTreeStep (env : Env) (cfg : Config) (destBlobs : List BlobPost)
    (srcTree : SrcTree) : Step DestTree :=
  let repo := srcTree.repo
  let updTree := updateTreeList destBlobs repo
  if updTree.length == 0 then
    ([], Except.ok ⟨repo, updTree, srcTree.ref, none, true⟩)
  else if cfg.dryRun then
    ([], Except.ok ⟨repo, updTree, srcTree.ref, some "DRY_RUN_UPDATE_TREE_SHA", false⟩)
  else
    let call := Call.createTree repo updTree (some srcTree.ref)
    match env.createTreeResp repo updTree (some srcTree.ref) with
    | Except.error m => ([call], Except.error m)
    | Except.ok sha => ([call], Except.ok ⟨repo, updTree, srcTree.ref, some sha, false⟩)

/-- The `treeBlobs` lookup table of `_createTree`: this repo's update/delete
blobs keyed by file, later entries overwriting earlier ones (JS `reduce`
into an object). -/
def treeBlobsFor (destBlobs : List BlobPost) (repo : String) : List BlobPost :=
  destBlobs.filter (fun b =>
    b.blob.repo == repo && (b.blob.contentUpdate || b.blob.contentDelete))

/-- Lookup in the `treeBlobs` table (last write wins). -/
def treeBlobLookup (tbs : List BlobPost) (path : String) : Option BlobPost :=
  (tbs.filter (fun b => b.blob.file == path)).getLast?

/-- The `commit` property the mismatch check reads off a `treeBlobs` value
(`destBlob.commit`): the table's values are the `{blob, posted}` records
produced by `postDestBlobs`, which carry no `commit` property — the
read-time sha lives at `destBlob.blob.commit.sha` instead — so the access
always yields `undefined`, modelled as `none`. -/
def BlobPost.commit (_ : BlobPost) : Option (Option String) := none

/-- The `createBlobs` additions of `_createTree`: this repo's creates in
tree-post form. -/
def createBlobsFor (destBlobs : List BlobPost) (repo : String) : List TreeEntry :=
  (destBlobs.filter (fun b => b.blob.repo == repo && b.blob.contentCreate)).map
    blobToPostForm

/-- The delete-filter of `_createTree`: source tree entries that survive
(everything whose correlated blob is not a delete). -/
def createTreeKept (destBlobs : List BlobPost) (srcTree : SrcTree) : List TreeEntry :=
  (srcTree.tree.getD []).filter (fun sb =>
    match treeBlobLookup (treeBlobsFor destBlobs srcTree.repo) sb.path with
    | some db => !db.blob.contentDelete
    | none => true)

/-- The `mismatches` tracking of `_createTree`: the guard
`destBlob && destBlob.commit && destBlob.commit.sha !== srcBlob.sha`.
Since `destBlob.commit` is always `undefined` on the `{blob, posted}`
record (see `BlobPost.commit`), the guard never fires: no mismatch is ever
recorded, whatever the shas are. -/
def createTreeMismatches (destBlobs : List BlobPost) (srcTree : SrcTree) :
    List TreeEntry :=
  (createTreeKept destBlobs srcTree).filter (fun sb =>
    match treeBlobLookup (treeBlobsFor destBlobs srcTree.repo) sb.path with
    | some db =>
      match db.commit with
      | some commitSha => commitSha != some sb.sha
      | none => false
    | none => false)

/-- The `createTree` entry list of `_createTree`: surviving entries with
updated shas rewritten, plus the creates. -/
def createTreeNewTree (destBlobs : List BlobPost) (srcTree : SrcTree) :
    List TreeEntry :=
  ((createTreeKept destBlobs srcTree).map (fun sb =>
    match treeBlobLookup (treeBlobsFor destBlobs srcTree.repo) sb.path with
    | none => sb
    | some db => ⟨sb.path, sb.mode, sb.type, db.sha.getD ""⟩))
    ++ createBlobsFor destBlobs srcTree.repo

/-- `_createTree`: full tree rewrite for a repo with deletes — drop deleted
paths, rewrite updated paths to the posted blob sha (recording a mismatch
when the read-time sha differs from the tree-entry sha), append creates,
and post the full list without a base tree.  Mismatches abort before any
mutation. -/
def createTreeStep (env : Env) (cfg : Config) (destBlobs : List BlobPost)
    (srcTree : SrcTree) : Step DestTree :=
  let repo := srcTree.repo
  let newTree := createTreeNewTree destBlobs srcTree
  if (createTreeMismatches destBlobs srcTree).length != 0 then
    ([], Except.error ("Detected blob sha mismatches in " ++ repo))
  else if cfg.dryRun then
    ([], Except.ok ⟨repo, newTree, srcTree.ref, some "DRY_RUN_CREATE_TREE_SHA", false⟩)
  else
    let call := Call.createTree repo newTree none
    match env.createTreeResp repo newTree none with
    | Except.error m => ([call], Except.error m)
    | Except.ok sha => ([call], Except.ok ⟨repo, newTree, srcTree.ref, some sha, false⟩)

/-- One item of `postDestTrees`: full rebuild with deletes present,
sparse update otherwise. -/
def postDestTreeItem (env : Env) (cfg : Config) (destBlobs : List BlobPost)
    (srcTree : SrcTree) : Step DestTree :=
  if srcTree.hasDelete then
    createTreeStep env cfg destBlobs srcTree
  else
    updateTreeStep env cfg destBlobs srcTree

/-- One item of `postDestCommits`: skip no-ops, sentinel on dry-run,
otherwise post a commit with the branch tip as single parent. -/
def postDestCommitItem (env : Env) (cfg : Config) (destTree : DestTree) : Step DestCommit :=
  let repo := destTree.repo
  if destTree.isNoop then
    ([], Except.ok ⟨repo, destTree.parentSha, none, destTree.isNoop⟩)
  else if cfg.dryRun then
    ([], Except.ok ⟨repo, destTree.parentSha, some "DRY_RUN_POST_COMMIT_SHA", destTree.isNoop⟩)
  else
    let call := Call.createCommit repo cfg.msg destTree.sha destTree.parentSha
    match env.createCommitResp repo cfg.msg destTree.sha destTree.parentSha with
    | Except.error m => ([call], Except.error m)
    | Except.ok sha => ([call], Except.ok ⟨repo, destTree.parentSha, some sha, destTree.isNoop⟩)

/-- One item of `updateBranch`: skip no-ops, sentinel on dry-run, otherwise
fast-forward (`force: false`) the destination ref to the new commit. -/
def updateBranchItem (env : Env) (cfg : Config) (branchDestFull : String)
    (destCommit : DestCommit) : Step BranchUpdate :=
  let repo := destCommit.repo
  if destCommit.isNoop then
    ([], Except.ok ⟨repo, none, destCommit.isNoop⟩)
  else if cfg.dryRun then
    ([], Except.ok ⟨repo, some "DRY_RUN_UPDATE_BRANCH_DATA", destCommit.isNoop⟩)
  else
    let call := Call.updateRef repo branchDestFull destCommit.sha false
    match env.updateRefResp repo branchDestFull destCommit.sha with
    | Except.error m => ([call], Except.error m)
    | Except.ok res => ([call], Except.ok ⟨repo, some res, destCommit.isNoop⟩)

/-- `getSrcContents` stage of `_commit`: `_read` against the destination
branch. -/
def commitGetSrcContents (env : Env) (cfg : Config) (branchDest : String) :
    Step (List FileData) :=
  readStage env cfg branchDest

/-- `postDestBlobs` stage of `_commit` (depends on `getSrcContents`). -/
def commitPostDestBlobs (env : Env) (cfg : Config) (branchDest : String) :
    Step (List BlobPost) :=
  match (commitGetSrcContents env cfg branchDest).2 with
  | Except.error e => ([], Except.error e)
  | Except.ok srcBlobs => mapStage (postDestBlobItem env cfg) srcBlobs

/-- `getSrcTrees` stage of `_commit` (depends on `getSrcContents` only, so it
runs concurrently with `postDestBlobs`). -/
def commitGetSrcTrees (env : Env) (cfg : Config) (branchDest : String) :
    Step (List SrcTree) :=
  match (commitGetSrcContents env cfg branchDest).2 with
  | Except.error e => ([], Except.error e)
  | Except.ok srcBlobs =>
    mapStage (getSrcTreeItem env ("heads/" ++ branchDest) srcBlobs) cfg.repos

/-- `postDestTrees` stage of `_commit` (depends on `getSrcTrees` and
`postDestBlobs`). -/
def commitPostDestTrees (env : Env) (cfg : Config) (branchDest : String) :
    Step (List DestTree) :=
  match (commitPostDestBlobs env cfg branchDest).2, (commitGetSrcTrees env cfg branchDest).2 with
  | Except.ok destBlobs, Except.ok srcTrees =>
    mapStage (postDestTreeItem env cfg destBlobs) srcTrees
  | Except.error e, _ => ([], Except.error e)
  | _, Except.error e => ([], Except.error e)

/-- `postDestCommits` stage of `_commit` (depends on `postDestTrees`). -/
def commitPostDestCommits (env : Env) (cfg : Config) (branchDest : String) :
    Step (List DestCommit) :=
  match (commitPostDestTrees env cfg branchDest).2 with
  | Except.error e => ([], Except.error e)
  | Except.ok destTrees => mapStage (postDestCommitItem env cfg) destTrees

/-- `updateBranch` stage of `_commit` (depends on `postDestCommits`). -/
def commitUpdateBranch (env : Env) (cfg : Config) (branchDest : String) :
    Step (List BranchUpdate) :=
  match (commitPostDestCommits env cfg branchDest).2 with
  | Except.error e => ([], Except.error e)
  | Except.ok destCommits =>
    mapStage (updateBranchItem env cfg ("heads/" ++ branchDest)) destCommits

/-- `_commit`: the staged pipeline.  The trace is the concatenation of every
stage's issued calls (a stage that never ran issues none); the final data
splices the posted sha and destination branch into each blob. -/
def commitInternal (env : Env) (cfg : Config) (branchDest : String) :
    Step (List FileData) :=
  ((commitGetSrcContents env cfg branchDest).1
      ++ (commitPostDestBlobs env cfg branchDest).1
      ++ (commitGetSrcTrees env cfg branchDest).1
      ++ (commitPostDestTrees env cfg branchDest).1
      ++ (commitPostDestCommits env cfg branchDest).1
      ++ (commitUpdateBranch env cfg branchDest).1,
    match (commitUpdateBranch env cfg branchDest).2,
        (commitPostDestBlobs env cfg branchDest).2 with
    | Except.ok _, Except.ok destBlobs =>
      Except.ok (destBlobs.map (fun bp =>
        { bp.blob with branchDest := some bp.blob.branchSrc, commitSha := bp.sha }))
    | Except.error e, _ => Except.error e
    | _, Except.error e => Except.error e)

/-- The standalone `commit` action targets — and reads from — the
destination branch. -/
def commitAction (env : Env) (cfg : Config) : Step (List FileData) :=
  commitInternal env cfg cfg.branchDest

/-- One item of `_pullRequest`: sentinel on dry-run; an "already exists"
rejection with `allowExisting` becomes a successful `exists` result with no
head sha; any other error is fatal for the repo. -/
def pullRequestItem (env : Env) (cfg : Config) (repo : String) : Step PrData :=
  if cfg.dryRun then
    ([], Except.ok ⟨repo, cfg.branchSrc, cfg.branchDest,
      some "DRY_RUN_CREATE_PR_HTML_URL", false, some "DRY_RUN_CREATE_PR_SHA"⟩)
  else
    let call := Call.createPullRequest repo cfg.title cfg.msg cfg.branchSrc cfg.branchDest
    match env.prResp repo cfg.title cfg.msg cfg.branchSrc cfg.branchDest with
    | PrResp.ok url headSha =>
      ([call], Except.ok ⟨repo, cfg.branchSrc, cfg.branchDest, some url, false, some headSha⟩)
    | PrResp.alreadyExists =>
      if cfg.allowExisting then
        ([call], Except.ok ⟨repo, cfg.branchSrc, cfg.branchDest, none, true, none⟩)
      else
        ([call], Except.error ("A pull request already exists for " ++ repo))
    | PrResp.err m => ([call], Except.error m)

/-- `_pullRequest`: parallel fan-out over the repos. -/
def pullRequestInternal (env : Env) (cfg : Config) : Step (List PrData) :=
  mapStage (pullRequestItem env cfg) cfg.repos

/-- A merged `branch-to-pr` result item. -/
structure FullData where
  file : FileData
  branch : Option BranchData
  pullRequest : Option PrData
  deriving Repr, DecidableEq

/-- The `commit` stage of `branchToPr` (gated on `branch`); dry-run reads
from the source branch since the destination does not yet exist. -/
def branchToPrCommit (env : Env) (cfg : Config) : Step (List FileData) :=
  match (branchInternal env cfg).2 with
  | Except.error e => ([], Except.error e)
  | Except.ok _ =>
    commitInternal env cfg (if cfg.dryRun then cfg.branchSrc else cfg.branchDest)

/-- The `pullRequest` stage of `branchToPr` (gated on `commit`). -/
def branchToPrPr (env : Env) (cfg : Config) : Step (List PrData) :=
  match (branchToPrCommit env cfg).2 with
  | Except.error e => ([], Except.error e)
  | Except.ok _ => pullRequestInternal env cfg

/-- `branchToPr`: `branch` → `commit` → `pullRequest`, each stage gated on
the prior stage's full success, with branch and PR info spliced into each
file result at the end. -/
def branchToPrAction (env : Env) (cfg : Config) : Step (List FullData) :=
  ((branchInternal env cfg).1 ++ (branchToPrCommit env cfg).1 ++ (branchToPrPr env cfg).1,
    match (branchInternal env cfg).2, (branchToPrCommit env cfg).2,
        (branchToPrPr env cfg).2 with
    | Except.ok branchData, Except.ok commitData, Except.ok prData =>
      Except.ok (commitData.map (fun obj =>
        ⟨obj, branchData.find? (fun o => o.repo == obj.repo),
          prData.find? (fun o => o.repo == obj.repo)⟩))
    | Except.error e, _, _ => Except.error e
    | _, Except.error e, _ => Except.error e
    | _, _, Except.error e => Except.error e)

/-- Classification of remote calls. -/
def Call.isGetContent : Call → Bool
  | Call.getContent _ _ _ => true
  | _ => false

def Call.isGetRef : Call → Bool
  | Call.getRef _ _ => true
  | _ => false

def Call.isGetTree : Call → Bool
  | Call.getTree _ _ => true
  | _ => false

def Call.isCreateRef : Call → Bool
  | Call.createRef _ _ _ => true
  | _ => false

def Call.isCreateBlob : Call → Bool
  | Call.createBlob _ _ => true
  | _ => false

def Call.isCreateTree : Call → Bool
  | Call.createTree _ _ _ => true
  | _ => false

def Call.isCreateCommit : Call → Bool
  | Call.createCommit _ _ _ _ => true
  | _ => false

def Call.isUpdateRef : Call → Bool
  | Call.updateRef _ _ _ _ => true
  | _ => false

def Call.isCreatePullRequest : Call → Bool
  | Call.createPullRequest _ _ _ _ _ => true
  | _ => false

/-- A mutating remote call. -/
def Call.isMutation (c : Call) : Bool :=
  c.isCreateRef || c.isCreateBlob || c.isCreateTree || c.isCreateCommit ||
    c.isUpdateRef || c.isCreatePullRequest

/-! ## Basic lemmas on `collectExcept` and `mapStage` -/

theorem collectExcept_error_of_mem {l : List (Except String β)} {m : String}
    (h : Except.error m ∈ l) : ∃ e, collectExcept l = Except.error e := by
  induction l with
  | nil => cases h
  | cons z rest ih =>
    cases h with
    | head => exact ⟨m, rfl⟩
    | tail _ hm =>
      cases z with
      | error e => exact ⟨e, rfl⟩
      | ok b =>
        obtain ⟨e, he⟩ := ih hm
        exact ⟨e, by simp [collectExcept, he]⟩

theorem collectExcept_map_ok (bs : List β) :
    collectExcept (bs.map Except.ok) = Except.ok bs := by
  induction bs with
  | nil => rfl
  | cons b bs ih => simp [collectExcept, ih]

theorem collectExcept_ok_eq {l : List (Except String β)} {bs : List β}
    (h : collectExcept l = Except.ok bs) : l = bs.map Except.ok := by
  induction l generalizing bs with
  | nil =>
    simp only [collectExcept] at h
    cases h
    rfl
  | cons z rest ih =>
    cases z with
    | error e => simp [collectExcept] at h
    | ok b =>
      simp only [collectExcept] at h
      cases hrest : collectExcept rest with
      | error e => rw [hrest] at h; cases h
      | ok cs =>
        rw [hrest] at h
        cases h
        simp [ih hrest]

theorem collectExcept_ok_mem {l : List (Except String β)} {bs : List β}
    (h : collectExcept l = Except.ok bs) {b : β} (hb : b ∈ bs) :
    Except.ok b ∈ l := by
  rw [collectExcept_ok_eq h]
  exact List.mem_map_of_mem _ hb

theorem mem_mapStage_fst {f : α → Step β} {xs : List α} {c : Call} :
    c ∈ (mapStage f xs).1 ↔ ∃ x ∈ xs, c ∈ (f x).1 := by
  simp [mapStage, List.mem_flatten]

theorem mapStage_error_of_mem {f : α → Step β} {xs : List α} {x : α} {m : String}
    (hx : x ∈ xs) (hf : (f x).2 = Except.error m) :
    ∃ e, (mapStage f xs).2 = Except.error e := by
  apply collectExcept_error_of_mem (m := m)
  rw [← hf]
  exact List.mem_map_of_mem _ (List.mem_map_of_mem f hx)

theorem mapStage_ok_mem {f : α → Step β} {xs : List α} {ys : List β}
    (h : (mapStage f xs).2 = Except.ok ys) {y : β} (hy : y ∈ ys) :
    ∃ x ∈ xs, (f x).2 = Except.ok y := by
  have hmem := collectExcept_ok_mem h hy
  simp only [List.map_map, List.mem_map, Function.comp] at hmem
  obtain ⟨x, hx, hfx⟩ := hmem
  exact ⟨x, hx, hfx⟩

theorem mapStage_snd_pointwise {f : α → Step β} {xs : List α} {g : α → β}
    (h : ∀ x ∈ xs, (f x).2 = Except.ok (g x)) :
    (mapStage f xs).2 = Except.ok (xs.map g) := by
  have : (xs.map f).map Prod.snd = (xs.map g).map Except.ok := by
    simp only [List.map_map]
    exact List.map_congr_left (fun x hx => h x hx)
  simp only [mapStage, this, collectExcept_map_ok]

theorem collectExcept_cons_ok (b : β) (rest : List (Except String β)) :
    collectExcept (Except.ok b :: rest) =
      match collectExcept rest with
      | Except.error e => Except.error e
      | Except.ok bs => Except.ok (b :: bs) := rfl

theorem mapStage_ok_of_all {f : α → Step β} {xs : List α}
    (h : ∀ x ∈ xs, ∃ y, (f x).2 = Except.ok y) :
    ∃ ys, (mapStage f xs).2 = Except.ok ys := by
  induction xs with
  | nil => exact ⟨[], rfl⟩
  | cons x xs ih =>
    obtain ⟨y, hy⟩ := h x (List.mem_cons_self x xs)
    obtain ⟨ys, hys⟩ := ih (fun a ha => h a (List.mem_cons_of_mem _ ha))
    refine ⟨y :: ys, ?_⟩
    show collectExcept (((x :: xs).map f).map Prod.snd) = Except.ok (y :: ys)
    have hys' : collectExcept ((xs.map f).map Prod.snd) = Except.ok ys := hys
    simp only [List.map_cons, hy, collectExcept_cons_ok, hys']

theorem mapStage_fst_pointwise {f : α → Step β} {xs : List α}
    (h : ∀ x ∈ xs, (f x).1 = []) : (mapStage f xs).1 = [] := by
  simp only [mapStage, List.map_map, List.flatten_eq_nil_iff]
  intro l hl
  simp only [List.mem_map, Function.comp] at hl
  obtain ⟨x, hx, hfx⟩ := hl
  exact hfx ▸ h x hx

theorem filter_eq_nil_of {α : Type} {p : α → Bool} {l : List α}
    (h : ∀ c ∈ l, p c = false) : l.filter p = [] := by
  induction l with
  | nil => rfl
  | cons c l ih =>
    rw [List.filter_cons_of_neg (by simp [h c (List.mem_cons_self c l)])]
    exact ih (fun a ha => h a (List.mem_cons_of_mem _ ha))

theorem mapStage_pointwise {f : α → Step β} {xs : List α} {g : α → β}
    (h : ∀ x ∈ xs, f x = ([], Except.ok (g x))) :
    mapStage f xs = ([], Except.ok (xs.map g)) := by
  have hfst : (mapStage f xs).1 = [] :=
    mapStage_fst_pointwise (fun x hx => by rw [h x hx])
  have hsnd : (mapStage f xs).2 = Except.ok (xs.map g) :=
    mapStage_snd_pointwise (fun x hx => by rw [h x hx])
  calc mapStage f xs = ((mapStage f xs).1, (mapStage f xs).2) := rfl
    _ = ([], Except.ok (xs.map g)) := by rw [hfst, hsnd]

/-! ## Trace characterizations of the per-item steps -/

theorem readItem_fst (env : Env) (branchSrc : String) (lk : Lookup) :
    (readItem env branchSrc lk).1 = [Call.getContent lk.repo lk.file branchSrc] := rfl

theorem getSrcRefItem_fst (env : Env) (full repo : String) :
    (getSrcRefItem env full repo).1 = [Call.getRef repo full] := rfl

theorem getDestRefItem_fst (env : Env) (cfg : Config) (full repo : String) :
    (getDestRefItem env cfg full repo).1 = [Call.getRef repo full] := rfl

theorem createDestRefItem_fst_sub (env : Env) (cfg : Config) (full : String)
    (srcRefs : List SrcRefInfo) (destRefs : List DestRefInfo) (repo : String) :
    ∀ c ∈ (createDestRefItem env cfg full srcRefs destRefs repo).1,
      ∃ s, c = Call.createRef repo ("refs/" ++ full) s := by
  intro c hc
  simp only [createDestRefItem] at hc
  repeat' split at hc
  all_goals simp_all

theorem postDestBlobItem_fst_sub (env : Env) (cfg : Config) (blob : FileData) :
    ∀ c ∈ (postDestBlobItem env cfg blob).1,
      c = Call.createBlob blob.repo blob.contentNew := by
  intro c hc
  simp only [postDestBlobItem] at hc
  repeat' split at hc
  all_goals simp_all

theorem getSrcTreeItem_fst_sub (env : Env) (full : String) (srcBlobs : List FileData)
    (repo : String) :
    ∀ c ∈ (getSrcTreeItem env full srcBlobs repo).1,
      c = Call.getRef repo full ∨ ∃ s, c = Call.getTree repo s := by
  intro c hc
  simp only [getSrcTreeItem] at hc
  repeat' split at hc
  all_goals
    simp only [List.mem_singleton, List.mem_cons, List.not_mem_nil, or_false] at hc
  all_goals try exact Or.inl hc
  all_goals rcases hc with hc | hc
  all_goals try exact Or.inl hc
  all_goals exact Or.inr ⟨_, hc⟩

theorem updateTreeStep_fst_sub (env : Env) (cfg : Config) (destBlobs : List BlobPost)
    (srcTree : SrcTree) :
    ∀ c ∈ (updateTreeStep env cfg destBlobs srcTree).1,
      ∃ es b, c = Call.createTree srcTree.repo es b := by
  intro c hc
  simp only [updateTreeStep] at hc
  repeat' split at hc
  all_goals simp_all

theorem createTreeStep_fst_sub (env : Env) (cfg : Config) (destBlobs : List BlobPost)
    (srcTree : SrcTree) :
    ∀ c ∈ (createTreeStep env cfg destBlobs srcTree).1,
      ∃ es b, c = Call.createTree srcTree.repo es b := by
  intro c hc
  simp only [createTreeStep] at hc
  repeat' split at hc
  all_goals simp_all

theorem postDestTreeItem_fst_sub (env : Env) (cfg : Config) (destBlobs : List BlobPost)
    (srcTree : SrcTree) :
    ∀ c ∈ (postDestTreeItem env cfg destBlobs srcTree).1,
      ∃ es b, c = Call.createTree srcTree.repo es b := by
  intro c hc
  simp only [postDestTreeItem] at hc
  split at hc
  · exact createTreeStep_fst_sub env cfg destBlobs srcTree c hc
  · exact updateTreeStep_fst_sub env cfg destBlobs srcTree c hc

theorem postDestCommitItem_fst_sub (env : Env) (cfg : Config) (destTree : DestTree) :
    ∀ c ∈ (postDestCommitItem env cfg destTree).1,
      ∃ t p, c = Call.createCommit destTree.repo cfg.msg t p := by
  intro c hc
  simp only [postDestCommitItem] at hc
  repeat' split at hc
  all_goals simp_all

theorem updateBranchItem_fst_sub (env : Env) (cfg : Config) (full : String)
    (destCommit : DestCommit) :
    ∀ c ∈ (updateBranchItem env cfg full destCommit).1,
      ∃ s, c = Call.updateRef destCommit.repo full s false := by
  intro c hc
  simp only [updateBranchItem] at hc
  repeat' split at hc
  all_goals simp_all

theorem pullRequestItem_fst_sub (env : Env) (cfg : Config) (repo : String) :
    ∀ c ∈ (pullRequestItem env cfg repo).1,
      c = Call.createPullRequest repo cfg.title cfg.msg cfg.branchSrc cfg.branchDest := by
  intro c hc
  simp only [pullRequestItem] at hc
  repeat' split at hc
  all_goals simp_all

/-! ## Trace characterizations of the stages -/

theorem readStage_fst_sub (env : Env) (cfg : Config) (b : String) :
    ∀ c ∈ (readStage env cfg b).1, ∃ r f, c = Call.getContent r f b := by
  intro c hc
  obtain ⟨lk, _, hcx⟩ := mem_mapStage_fst.mp hc
  rw [readItem_fst] at hcx
  simp at hcx
  exact ⟨lk.repo, lk.file, hcx⟩

theorem branchGetSrcRefs_fst_sub (env : Env) (cfg : Config) :
    ∀ c ∈ (branchGetSrcRefs env cfg).1,
      ∃ r, c = Call.getRef r ("heads/" ++ cfg.branchSrc) := by
  intro c hc
  obtain ⟨x, _, hcx⟩ := mem_mapStage_fst.mp hc
  rw [getSrcRefItem_fst] at hcx
  simp at hcx
  exact ⟨x, hcx⟩

theorem branchGetDestRefs_fst_sub (env : Env) (cfg : Config) :
    ∀ c ∈ (branchGetDestRefs env cfg).1,
      ∃ r, c = Call.getRef r ("heads/" ++ cfg.branchDest) := by
  intro c hc
  obtain ⟨x, _, hcx⟩ := mem_mapStage_fst.mp hc
  rw [getDestRefItem_fst] at hcx
  simp at hcx
  exact ⟨x, hcx⟩

theorem commitGetSrcContents_fst_sub (env : Env) (cfg : Config) (d : String) :
    ∀ c ∈ (commitGetSrcContents env cfg d).1, ∃ r f, c = Call.getContent r f d :=
  readStage_fst_sub env cfg d

theorem commitPostDestBlobs_fst_sub (env : Env) (cfg : Config) (d : String) :
    ∀ c ∈ (commitPostDestBlobs env cfg d).1, ∃ r cont, c = Call.createBlob r cont := by
  intro c hc
  unfold commitPostDestBlobs at hc
  split at hc
  · simp at hc
  · obtain ⟨b, _, hcx⟩ := mem_mapStage_fst.mp hc
    have := postDestBlobItem_fst_sub env cfg b c hcx
    exact ⟨b.repo, b.contentNew, this⟩

theorem commitGetSrcTrees_fst_sub (env : Env) (cfg : Config) (d : String) :
    ∀ c ∈ (commitGetSrcTrees env cfg d).1,
      (∃ r, c = Call.getRef r ("heads/" ++ d)) ∨ ∃ r s, c = Call.getTree r s := by
  intro c hc
  unfold commitGetSrcTrees at hc
  split at hc
  · simp at hc
  · obtain ⟨repo, _, hcx⟩ := mem_mapStage_fst.mp hc
    rcases getSrcTreeItem_fst_sub env ("heads/" ++ d) _ repo c hcx with h | ⟨s, h⟩
    · exact Or.inl ⟨repo, h⟩
    · exact Or.inr ⟨repo, s, h⟩

theorem commitPostDestTrees_fst_sub (env : Env) (cfg : Config) (d : String) :
    ∀ c ∈ (commitPostDestTrees env cfg d).1, ∃ r es b, c = Call.createTree r es b := by
  intro c hc
  unfold commitPostDestTrees at hc
  split at hc
  · obtain ⟨st, _, hcx⟩ := mem_mapStage_fst.mp hc
    obtain ⟨es, b, h⟩ := postDestTreeItem_fst_sub env cfg _ st c hcx
    exact ⟨st.repo, es, b, h⟩
  · simp at hc
  · simp at hc

theorem commitPostDestCommits_fst_sub (env : Env) (cfg : Config) (d : String) :
    ∀ c ∈ (commitPostDestCommits env cfg d).1,
      ∃ r t p, c = Call.createCommit r cfg.msg t p := by
  intro c hc
  unfold commitPostDestCommits at hc
  split at hc
  · simp at hc
  · obtain ⟨dt, _, hcx⟩ := mem_mapStage_fst.mp hc
    obtain ⟨t, p, h⟩ := postDestCommitItem_fst_sub env cfg dt c hcx
    exact ⟨dt.repo, t, p, h⟩

theorem commitUpdateBranch_fst_sub (env : Env) (cfg : Config) (d : String) :
    ∀ c ∈ (commitUpdateBranch env cfg d).1,
      ∃ r s, c = Call.updateRef r ("heads/" ++ d) s false := by
  intro c hc
  unfold commitUpdateBranch at hc
  split at hc
  · simp at hc
  · obtain ⟨dc, _, hcx⟩ := mem_mapStage_fst.mp hc
    obtain ⟨s, h⟩ := updateBranchItem_fst_sub env cfg ("heads/" ++ d) dc c hcx
    exact ⟨dc.repo, s, h⟩

theorem pullRequestInternal_fst_sub (env : Env) (cfg : Config) :
    ∀ c ∈ (pullRequestInternal env cfg).1,
      ∃ r, c = Call.createPullRequest r cfg.title cfg.msg cfg.branchSrc cfg.branchDest := by
  intro c hc
  obtain ⟨r, _, hcx⟩ := mem_mapStage_fst.mp hc
  exact ⟨r, pullRequestItem_fst_sub env cfg r c hcx⟩

/-! ## Classification invariants of the read stage -/

/-- A successful `_read` item classifies its result exactly as the source
does: `create ↔ origContent = null`, `update ↔` both present and different,
`delete ↔ newContent = null`, and never create-and-delete at once. -/
theorem readItem_ok_flags {env : Env} {b : String} {lk : Lookup} {d : FileData}
    (h : (readItem env b lk).2 = Except.ok d) :
    d.contentCreate = d.contentOrig.isNone ∧
      d.contentUpdate = (d.contentOrig.isSome && d.contentNew.isSome &&
        (d.contentOrig != d.contentNew)) ∧
      d.contentDelete = d.contentNew.isNone ∧
      (d.contentOrig.isNone && d.contentNew.isNone) = false := by
  simp only [readItem] at h
  repeat' split at h
  all_goals first
    | exact Except.noConfusion h
    | (injection h with h
       subst h
       refine ⟨rfl, rfl, rfl, ?_⟩
       simp_all [Option.isSome_iff_ne_none, Option.isNone_iff_eq_none])

/-- With no delete present for a repo, `getSrcTrees` returns just the ref,
with no tree and `hasDelete = false`. -/
theorem getSrcTreeItem_no_delete {env : Env} {full : String} {srcBlobs : List FileData}
    {r : String} (hdel : hasDeleteFor srcBlobs r = false) {st : SrcTree}
    (hok : (getSrcTreeItem env full srcBlobs r).2 = Except.ok st) :
    st.hasDelete = false ∧ st.tree = none := by
  simp only [getSrcTreeItem, hdel] at hok
  repeat' split at hok
  all_goals first
    | exact Except.noConfusion hok
    | (injection hok with hok
       rw [← hok]
       exact ⟨rfl, rfl⟩)
    | simp_all

/-- A successful `_read` item carries its lookup's repo and file. -/
theorem readItem_ok_ids {env : Env} {b : String} {lk : Lookup} {d : FileData}
    (h : (readItem env b lk).2 = Except.ok d) :
    d.repo = lk.repo ∧ d.file = lk.file := by
  simp only [readItem] at h
  repeat' split at h
  all_goals first
    | exact Except.noConfusion h
    | (injection h with h; subst h; exact ⟨rfl, rfl⟩)

/-- Projections of an all-success `async.map` result line up item by item
with the inputs. -/
theorem map_snd_ok_proj {α β γ : Type} {f : α → Step β} {xs : List α} {ys : List β}
    {p : β → γ} {q : α → γ}
    (hmaps : (xs.map f).map Prod.snd = ys.map Except.ok)
    (hpt : ∀ x y, (f x).2 = Except.ok y → p y = q x) :
    ys.map p = xs.map q := by
  induction xs generalizing ys with
  | nil =>
    cases ys with
    | nil => rfl
    | cons y ys => simp at hmaps
  | cons x xs ih =>
    cases ys with
    | nil => simp at hmaps
    | cons y ys =>
      simp only [List.map_cons, List.cons.injEq] at hmaps
      obtain ⟨h1, h2⟩ := hmaps
      simp only [List.map_cons, List.cons.injEq]
      exact ⟨hpt x y h1, ih h2⟩

/-- Completion-order model for a parallel fan-out: each finished task writes
its own slot; later writes of the same slot are idempotent. -/
def scatterRun (f : Nat → β) : List Nat → (Nat → Option β) → Nat → Option β
  | [], acc => acc
  | i :: rest, acc => scatterRun f rest (fun j => if j = i then some (f i) else acc j)

/-- Any slot whose task completed holds that task's result, in any
completion order. -/
theorem scatterRun_eq_of_mem {β : Type} {f : Nat → β} (order : List Nat)
    (acc : Nat → Option β) (i : Nat)
    (h : i ∈ order ∨ acc i = some (f i)) :
    scatterRun f order acc i = some (f i) := by
  induction order generalizing acc with
  | nil =>
    rcases h with h | h
    · cases h
    · exact h
  | cons j rest ih =>
    apply ih
    rcases h with h | h
    · rcases List.mem_cons.mp h with rfl | hmem
      · right; simp
      · left; exact hmem
    · by_cases hij : i = j
      · right; subst hij; simp
      · right; simpa [hij] using h

/-- A list map is the map over positions. -/
theorem map_eq_range_map {α β : Type} (g : α → β) (dflt : α) (l : List α) :
    l.map g = (List.range l.length).map (fun i => g (l.getD i dflt)) := by
  induction l with
  | nil => rfl
  | cons x xs ih =>
    simp only [List.length_cons, List.range_succ_eq_map, List.map_cons, List.map_map]
    refine congrArg₂ _ rfl ?_
    rw [ih]
    apply List.map_congr_left
    intro i _
    rfl

/-! ## Concrete environments and configurations for witnesses -/

/-- A fully successful remote: every file exists with content `"hello"`,
every ref resolves, every mutation succeeds, the transform upper-cases. -/
def envBase : Env where
  contentResp := fun _ _ _ => ContentResp.ok "hello" "SHA_READ"
  refResp := fun _ _ => RefResp.ok "SHA_REF"
  createRefResp := fun _ _ _ => Except.ok "SHA_NEWREF"
  createBlobResp := fun _ _ => Except.ok "SHA_BLOB"
  treeResp := fun _ _ => Except.ok ([], false)
  createTreeResp := fun _ _ _ => Except.ok "SHA_TREE"
  createCommitResp := fun _ _ _ _ => Except.ok "SHA_COMMIT"
  updateRefResp := fun _ _ _ => Except.ok "SHA_UPDATED"
  prResp := fun _ _ _ _ _ => PrResp.ok "URL" "SHA_HEAD"
  transform := fun _ _ _ => TransformResp.ok (some "HELLO")

/-- One repo, one file, no dry-run, existing branches disallowed. -/
def cfgBase : Config where
  repos := ["acme/x"]
  files := ["README.md"]
  branchSrc := "master"
  branchDest := "feature"
  allowExisting := false
  dryRun := false
  msg := "msg"
  title := "title"

/-! ## Error propagation through the commit pipeline -/

theorem commit_stages_of_read_error {env : Env} {cfg : Config} {d : String} {e : String}
    (he : (commitGetSrcContents env cfg d).2 = Except.error e) :
    commitPostDestBlobs env cfg d = ([], Except.error e) ∧
      commitGetSrcTrees env cfg d = ([], Except.error e) ∧
      commitPostDestTrees env cfg d = ([], Except.error e) ∧
      commitPostDestCommits env cfg d = ([], Except.error e) ∧
      commitUpdateBranch env cfg d = ([], Except.error e) := by
  have h1 : commitPostDestBlobs env cfg d = ([], Except.error e) := by
    unfold commitPostDestBlobs; rw [he]
  have h2 : commitGetSrcTrees env cfg d = ([], Except.error e) := by
    unfold commitGetSrcTrees; rw [he]
  have h3 : commitPostDestTrees env cfg d = ([], Except.error e) := by
    unfold commitPostDestTrees
    rw [h1, h2]
  have h4 : commitPostDestCommits env cfg d = ([], Except.error e) := by
    unfold commitPostDestCommits; rw [h3]
  have h5 : commitUpdateBranch env cfg d = ([], Except.error e) := by
    unfold commitUpdateBranch; rw [h4]
  exact ⟨h1, h2, h3, h4, h5⟩

theorem commitInternal_of_read_error {env : Env} {cfg : Config} {d : String} {e : String}
    (he : (commitGetSrcContents env cfg d).2 = Except.error e) :
    commitInternal env cfg d = ((commitGetSrcContents env cfg d).1, Except.error e) := by
  obtain ⟨h1, h2, h3, h4, h5⟩ := commit_stages_of_read_error he
  unfold commitInternal
  rw [h1, h2, h3, h4, h5]
  simp

theorem commit_tail_of_blobs_error {env : Env} {cfg : Config} {d : String} {e : String}
    (he : (commitPostDestBlobs env cfg d).2 = Except.error e) :
    commitPostDestTrees env cfg d = ([], Except.error e) ∧
      commitPostDestCommits env cfg d = ([], Except.error e) ∧
      commitUpdateBranch env cfg d = ([], Except.error e) ∧
      commitInternal env cfg d =
        ((commitGetSrcContents env cfg d).1 ++ (commitPostDestBlobs env cfg d).1
          ++ (commitGetSrcTrees env cfg d).1, Except.error e) := by
  cases hb : (commitPostDestBlobs env cfg d).2 with
  | ok bs => rw [hb] at he; cases he
  | error eb =>
    rw [hb] at he
    cases he
    have h3 : commitPostDestTrees env cfg d = ([], Except.error e) := by
      unfold commitPostDestTrees
      rw [hb]
      cases htr : (commitGetSrcTrees env cfg d).2 <;> rfl
    have h4 : commitPostDestCommits env cfg d = ([], Except.error e) := by
      unfold commitPostDestCommits; rw [h3]
    have h5 : commitUpdateBranch env cfg d = ([], Except.error e) := by
      unfold commitUpdateBranch; rw [h4]
    refine ⟨h3, h4, h5, ?_⟩
    unfold commitInternal
    rw [h3, h4, h5]
    simp

theorem commit_tail_of_trees_error {env : Env} {cfg : Config} {d : String} {e : String}
    (he : (commitGetSrcTrees env cfg d).2 = Except.error e) :
    ∃ e',
      commitPostDestTrees env cfg d = ([], Except.error e') ∧
        commitPostDestCommits env cfg d = ([], Except.error e') ∧
        commitUpdateBranch env cfg d = ([], Except.error e') ∧
        commitInternal env cfg d =
          ((commitGetSrcContents env cfg d).1 ++ (commitPostDestBlobs env cfg d).1
            ++ (commitGetSrcTrees env cfg d).1, Except.error e') := by
  cases hb : (commitPostDestBlobs env cfg d).2 with
  | error eb =>
    obtain ⟨h3, h4, h5, h6⟩ := commit_tail_of_blobs_error hb
    exact ⟨eb, h3, h4, h5, h6⟩
  | ok bs =>
    have h3 : commitPostDestTrees env cfg d = ([], Except.error e) := by
      unfold commitPostDestTrees; rw [hb, he]
    have h4 : commitPostDestCommits env cfg d = ([], Except.error e) := by
      unfold commitPostDestCommits; rw [h3]
    have h5 : commitUpdateBranch env cfg d = ([], Except.error e) := by
      unfold commitUpdateBranch; rw [h4]
    refine ⟨e, h3, h4, h5, ?_⟩
    unfold commitInternal
    rw [h3, h4, h5]
    simp

theorem commit_tail_of_dtrees_error {env : Env} {cfg : Config} {d : String} {e : String}
    (he : (commitPostDestTrees env cfg d).2 = Except.error e) :
    commitPostDestCommits env cfg d = ([], Except.error e) ∧
      commitUpdateBranch env cfg d = ([], Except.error e) ∧
      commitInternal env cfg d =
        ((commitGetSrcContents env cfg d).1 ++ (commitPostDestBlobs env cfg d).1
          ++ (commitGetSrcTrees env cfg d).1 ++ (commitPostDestTrees env cfg d).1,
          Except.error e) := by
  have h4 : commitPostDestCommits env cfg d = ([], Except.error e) := by
    unfold commitPostDestCommits; rw [he]
  have h5 : commitUpdateBranch env cfg d = ([], Except.error e) := by
    unfold commitUpdateBranch; rw [h4]
  refine ⟨h4, h5, ?_⟩
  unfold commitInternal
  rw [h4, h5]
  simp

theorem commit_tail_of_commits_error {env : Env} {cfg : Config} {d : String} {e : String}
    (he : (commitPostDestCommits env cfg d).2 = Except.error e) :
    commitUpdateBranch env cfg d = ([], Except.error e) ∧
      commitInternal env cfg d =
        ((commitGetSrcContents env cfg d).1 ++ (commitPostDestBlobs env cfg d).1
          ++ (commitGetSrcTrees env cfg d).1 ++ (commitPostDestTrees env cfg d).1
          ++ (commitPostDestCommits env cfg d).1,
          Except.error e) := by
  have h5 : commitUpdateBranch env cfg d = ([], Except.error e) := by
    unfold commitUpdateBranch; rw [he]
  refine ⟨h5, ?_⟩
  unfold commitInternal
  rw [h5]
  simp

theorem commitInternal_snd_of_branch_error {env : Env} {cfg : Config} {d : String}
    {e : String} (he : (commitUpdateBranch env cfg d).2 = Except.error e) :
    (commitInternal env cfg d).2 = Except.error e := by
  simp only [commitInternal]
  rw [he]
  cases hb : (commitPostDestBlobs env cfg d).2 <;> rfl

/-- Every `getContent` issued anywhere in `_commit` reads at the branch
`_commit` targets. -/
theorem commitInternal_fst_getContent (env : Env) (cfg : Config) (d : String) :
    ∀ r f ref, Call.getContent r f ref ∈ (commitInternal env cfg d).1 → ref = d := by
  intro r f ref hmem
  simp only [commitInternal, List.mem_append] at hmem
  rcases hmem with ((((h1 | h2) | h3) | h4) | h5) | h6
  · obtain ⟨r', f', hcall⟩ := commitGetSrcContents_fst_sub env cfg d _ h1
    simp only [Call.getContent.injEq] at hcall
    exact hcall.2.2
  · obtain ⟨r', cont, hcall⟩ := commitPostDestBlobs_fst_sub env cfg d _ h2
    exact Call.noConfusion hcall
  · rcases commitGetSrcTrees_fst_sub env cfg d _ h3 with ⟨r', hcall⟩ | ⟨r', s, hcall⟩
    · exact Call.noConfusion hcall
    · exact Call.noConfusion hcall
  · obtain ⟨r', es, b, hcall⟩ := commitPostDestTrees_fst_sub env cfg d _ h4
    exact Call.noConfusion hcall
  · obtain ⟨r', t, p, hcall⟩ := commitPostDestCommits_fst_sub env cfg d _ h5
    exact Call.noConfusion hcall
  · obtain ⟨r', s, hcall⟩ := commitUpdateBranch_fst_sub env cfg d _ h6
    exact Call.noConfusion hcall

/-! ## Claim theorems -/

/-- **C4.** For every branch action over a set of repositories with
`allowExisting = false`, if the destination ref already exists in at least
one repository, the whole operation fails and no `createRef` call is made
for any repository in the set. -/
theorem branch_existing_dest_blocks_all_creates (env : Env) (cfg : Config)
    (r sha : String) (hr : r ∈ cfg.repos)
    (href : env.refResp r ("heads/" ++ cfg.branchDest) = RefResp.ok sha)
    (hallow : cfg.allowExisting = false) :
    resultOk (branchInternal env cfg).2 = false ∧
      (branchInternal env cfg).1.filter Call.isCreateRef = [] := by
  have hitem : (getDestRefItem env cfg ("heads/" ++ cfg.branchDest) r).2 =
      Except.error
        ("Found existing dest branch in repo: " ++ r ++ " with sha: " ++ sha) := by
    simp [getDestRefItem, href, hallow]
  obtain ⟨e, he⟩ :=
    mapStage_error_of_mem (f := getDestRefItem env cfg ("heads/" ++ cfg.branchDest))
      hr hitem
  have hdest : (branchGetDestRefs env cfg).2 = Except.error e := he
  have hcreate : ∃ e', branchCreateDestRefs env cfg = ([], Except.error e') := by
    unfold branchCreateDestRefs
    rw [hdest]
    cases hsrc : (branchGetSrcRefs env cfg).2 with
    | error e' => exact ⟨e', rfl⟩
    | ok s => exact ⟨e, rfl⟩
  obtain ⟨e', hc⟩ := hcreate
  constructor
  · show resultOk (branchCreateDestRefs env cfg).2 = false
    rw [hc]
    rfl
  · show ((branchGetSrcRefs env cfg).1 ++ (branchGetDestRefs env cfg).1
      ++ (branchCreateDestRefs env cfg).1).filter Call.isCreateRef = []
    rw [hc]
    simp only [List.append_nil, List.filter_append, List.append_eq_nil]
    constructor
    · apply filter_eq_nil_of
      intro c hcmem
      obtain ⟨r', hr'⟩ := branchGetSrcRefs_fst_sub env cfg c hcmem
      subst hr'
      rfl
    · apply filter_eq_nil_of
      intro c hcmem
      obtain ⟨r', hr'⟩ := branchGetDestRefs_fst_sub env cfg c hcmem
      subst hr'
      rfl

/-- Witness for C4: with `envBase` (destination ref resolves) and `cfgBase`
(`allowExisting = false`), the branch action fails without any `createRef`. -/
theorem branch_existing_dest_blocks_all_creates_witness :
    resultOk (branchInternal envBase cfgBase).2 = false ∧
      (branchInternal envBase cfgBase).1.filter Call.isCreateRef = [] :=
  branch_existing_dest_blocks_all_creates envBase cfgBase "acme/x" "SHA_REF"
    (by decide) rfl rfl

/-- **C9.** In a pull-request action with no dry-run: a forge rejection
meaning "a pull request already exists for this branch pair" together with
`allowExisting = true` yields a successful per-repo result with
`exists = true` and no head sha; any other error is fatal for that
repository. -/
theorem pull_request_allow_existing (env : Env) (cfg : Config) (repo : String)
    (hdry : cfg.dryRun = false) :
    (env.prResp repo cfg.title cfg.msg cfg.branchSrc cfg.branchDest = PrResp.alreadyExists →
      cfg.allowExisting = true →
      pullRequestItem env cfg repo =
        ([Call.createPullRequest repo cfg.title cfg.msg cfg.branchSrc cfg.branchDest],
          Except.ok ⟨repo, cfg.branchSrc, cfg.branchDest, none, true, none⟩)) ∧
    (∀ m, env.prResp repo cfg.title cfg.msg cfg.branchSrc cfg.branchDest = PrResp.err m →
      (pullRequestItem env cfg repo).2 = Except.error m) := by
  constructor
  · intro hae hallow
    simp [pullRequestItem, hdry, hae, hallow]
  · intro m hm
    simp [pullRequestItem, hdry, hm]

/-- An environment whose forge answers "a pull request already exists". -/
def envPrExists : Env :=
  { envBase with prResp := fun _ _ _ _ _ => PrResp.alreadyExists }

/-- An environment whose forge fails pull-request creation outright. -/
def envPrErr : Env :=
  { envBase with prResp := fun _ _ _ _ _ => PrResp.err "boom" }

/-- `cfgBase` with existing branches/PRs allowed. -/
def cfgAllow : Config := { cfgBase with allowExisting := true }

/-- Witness for C9 at concrete inputs: existing-PR rejection is converted to
success with `exists = true` and no sha; a plain error is fatal. -/
theorem pull_request_allow_existing_witness :
    pullRequestItem envPrExists cfgAllow "acme/x" =
      ([Call.createPullRequest "acme/x" "title" "msg" "master" "feature"],
        Except.ok ⟨"acme/x", "master", "feature", none, true, none⟩) ∧
      (pullRequestItem envPrErr cfgBase "acme/x").2 = Except.error "boom" :=
  ⟨(pull_request_allow_existing envPrExists cfgAllow "acme/x" rfl).1 rfl rfl,
    (pull_request_allow_existing envPrErr cfgBase "acme/x" rfl).2 "boom" rfl⟩

/-- **C2.** For every (repo, file) pair of a read or commit, a nonexistent
source file (`origContent = null`) whose transform also returns `null` fails
with the "Cannot have both create + delete" policy error in the read stage,
and a commit invocation hitting it issues no mutating call at all. -/
theorem read_create_delete_policy (env : Env) (cfg : Config) (d : String) (lk : Lookup)
    (hlk : lk ∈ lookups cfg)
    (hnf : env.contentResp lk.repo lk.file d = ContentResp.notFound)
    (ht : env.transform lk.repo lk.file none = TransformResp.ok none) :
    (readItem env d lk).2 = Except.error "Cannot have both create + delete" ∧
      resultOk (readStage env cfg d).2 = false ∧
      resultOk (commitInternal env cfg d).2 = false ∧
      (commitInternal env cfg d).1.filter Call.isMutation = [] := by
  have hitem : (readItem env d lk).2 =
      Except.error "Cannot have both create + delete" := by
    simp [readItem, hnf, ht]
  obtain ⟨e, he⟩ := mapStage_error_of_mem (f := readItem env d) hlk hitem
  have hread : (commitGetSrcContents env cfg d).2 = Except.error e := he
  have hcommit := commitInternal_of_read_error hread
  refine ⟨hitem, ?_, ?_, ?_⟩
  · have : (readStage env cfg d).2 = Except.error e := he
    rw [this]; rfl
  · rw [hcommit]; rfl
  · rw [hcommit]
    apply filter_eq_nil_of
    intro c hcmem
    obtain ⟨r', f', hcall⟩ := commitGetSrcContents_fst_sub env cfg d c hcmem
    subst hcall
    rfl

/-- The trace of the first three commit stages (read, blob posting and tree
fetching, the latter two concurrent) contains no `createTree`,
`createCommit` or `updateRef` call. -/
theorem commit_head_trace_no_tree_mutations (env : Env) (cfg : Config) (d : String) :
    ((commitGetSrcContents env cfg d).1 ++ (commitPostDestBlobs env cfg d).1
      ++ (commitGetSrcTrees env cfg d).1).filter
      (fun c => c.isCreateTree || c.isCreateCommit || c.isUpdateRef) = [] := by
  apply filter_eq_nil_of
  intro c hc
  simp only [List.mem_append, or_assoc] at hc
  rcases hc with h1 | h2 | h3
  · obtain ⟨r, f, h⟩ := commitGetSrcContents_fst_sub env cfg d c h1
    subst h; rfl
  · obtain ⟨r, cont, h⟩ := commitPostDestBlobs_fst_sub env cfg d c h2
    subst h; rfl
  · rcases commitGetSrcTrees_fst_sub env cfg d c h3 with ⟨r, h⟩ | ⟨r, s, h⟩ <;>
      (subst h; rfl)

/-- **C1 (amended).** If some repository's batch contains a delete and its
recursive tree listing is truncated, the whole commit action fails and zero
`createTree`, `createCommit` and `updateRef` calls occur for any repository
in the batch.  (`createBlob` calls can still occur: blob posting runs
concurrently with the tree fetch — see the counterexample.) -/
theorem commit_truncated_tree_blocks_tree_mutations (env : Env) (cfg : Config)
    (d : String) (srcBlobs : List FileData) (repo refSha : String) (tr : List TreeEntry)
    (hread : (commitGetSrcContents env cfg d).2 = Except.ok srcBlobs)
    (hrepo : repo ∈ cfg.repos)
    (hdel : hasDeleteFor srcBlobs repo = true)
    (href : env.refResp repo ("heads/" ++ d) = RefResp.ok refSha)
    (htree : env.treeResp repo refSha = Except.ok (tr, true)) :
    resultOk (commitInternal env cfg d).2 = false ∧
      (commitInternal env cfg d).1.filter
        (fun c => c.isCreateTree || c.isCreateCommit || c.isUpdateRef) = [] := by
  have hitem : (getSrcTreeItem env ("heads/" ++ d) srcBlobs repo).2 =
      Except.error ("Received truncated tree for: " ++ repo) := by
    simp [getSrcTreeItem, href, hdel, htree]
  obtain ⟨e, he⟩ :=
    mapStage_error_of_mem (f := getSrcTreeItem env ("heads/" ++ d) srcBlobs) hrepo hitem
  have htrees : (commitGetSrcTrees env cfg d).2 = Except.error e := by
    unfold commitGetSrcTrees
    rw [hread]
    exact he
  obtain ⟨e', _, _, _, hci⟩ := commit_tail_of_trees_error htrees
  rw [hci]
  exact ⟨rfl, commit_head_trace_no_tree_mutations env cfg d⟩

/-- An environment for C1: file `f` updates, file `g` deletes, and the
recursive tree listing comes back truncated. -/
def envTrunc : Env :=
  { envBase with
    transform := fun _ f _ =>
      if f == "g" then TransformResp.ok none else TransformResp.ok (some "HELLO")
    treeResp := fun _ _ => Except.ok ([], true) }

/-- Config for C1: one repo, an updated file and a deleted file. -/
def cfgTrunc : Config := { cfgBase with files := ["f", "g"] }

/-- Counterexample to C1 as stated: under a truncated tree listing for a
repo with a delete, the action fails but a `createBlob` call *is* issued
(blob posting is dispatched concurrently with the tree fetch). -/
theorem commit_truncated_tree_posts_blobs_cex :
    resultOk (commitInternal envTrunc cfgTrunc "feature").2 = false ∧
      (commitInternal envTrunc cfgTrunc "feature").1.filter Call.isCreateBlob =
        [Call.createBlob "acme/x" (some "HELLO")] := by
  decide

/-- The read results produced by `envTrunc` over `cfgTrunc` at `"feature"`. -/
def truncBlobs : List FileData :=
  [{ repo := "acme/x", file := "f", branchSrc := "feature", branchDest := none,
     contentOrig := some "hello", contentNew := some "HELLO", contentCreate := false,
     contentUpdate := true, contentDelete := false, commitSha := some "SHA_READ" },
   { repo := "acme/x", file := "g", branchSrc := "feature", branchDest := none,
     contentOrig := some "hello", contentNew := none, contentCreate := false,
     contentUpdate := false, contentDelete := true, commitSha := some "SHA_READ" }]

/-- Witness for the amended C1 at a concrete input. -/
theorem commit_truncated_tree_blocks_tree_mutations_witness :
    resultOk (commitInternal envTrunc cfgTrunc "feature").2 = false ∧
      (commitInternal envTrunc cfgTrunc "feature").1.filter
        (fun c => c.isCreateTree || c.isCreateCommit || c.isUpdateRef) = [] :=
  commit_truncated_tree_blocks_tree_mutations envTrunc cfgTrunc "feature"
    truncBlobs "acme/x" "SHA_REF" [] rfl (by decide) (by decide) rfl rfl

/-- `postDestBlobItem` issues its `createBlob` call for every create/update
blob outside dry-run, regardless of whether the POST succeeds. -/
theorem postDestBlobItem_issues (env : Env) (cfg : Config) (b : FileData)
    (hcu : (b.contentCreate || b.contentUpdate) = true) (hdry : cfg.dryRun = false) :
    (postDestBlobItem env cfg b).1 = [Call.createBlob b.repo b.contentNew] := by
  simp only [postDestBlobItem, hcu, hdry]
  cases env.createBlobResp b.repo b.contentNew <;> simp

/-- **C7 (amended).** During a commit action, a failure at any stage —
blob, tree, commit or ref — fails the aggregate action and stops every
later stage for every repository, not just the failing one; calls already
dispatched within the same stage (e.g. sibling repositories' blob POSTs)
still complete. -/
theorem commit_stage_failure_stops_all_repos (env : Env) (cfg : Config) (d : String) :
    (∀ e, (commitPostDestBlobs env cfg d).2 = Except.error e →
      resultOk (commitInternal env cfg d).2 = false ∧
        (commitInternal env cfg d).1.filter
          (fun c => c.isCreateTree || c.isCreateCommit || c.isUpdateRef) = []) ∧
      (∀ e, (commitPostDestTrees env cfg d).2 = Except.error e →
        resultOk (commitInternal env cfg d).2 = false ∧
          (commitInternal env cfg d).1.filter
            (fun c => c.isCreateCommit || c.isUpdateRef) = []) ∧
      (∀ e, (commitPostDestCommits env cfg d).2 = Except.error e →
        resultOk (commitInternal env cfg d).2 = false ∧
          (commitInternal env cfg d).1.filter Call.isUpdateRef = []) ∧
      (∀ e, (commitUpdateBranch env cfg d).2 = Except.error e →
        resultOk (commitInternal env cfg d).2 = false) ∧
      ∀ srcBlobs, (commitGetSrcContents env cfg d).2 = Except.ok srcBlobs →
        cfg.dryRun = false →
        ∀ b ∈ srcBlobs, (b.contentCreate || b.contentUpdate) = true →
          Call.createBlob b.repo b.contentNew ∈ (commitInternal env cfg d).1 := by
  refine ⟨?_, ?_, ?_, ?_, ?_⟩
  · intro e he
    obtain ⟨_, _, _, hci⟩ := commit_tail_of_blobs_error he
    rw [hci]
    exact ⟨rfl, commit_head_trace_no_tree_mutations env cfg d⟩
  · intro e he
    obtain ⟨_, _, hci⟩ := commit_tail_of_dtrees_error he
    rw [hci]
    refine ⟨rfl, ?_⟩
    apply filter_eq_nil_of
    intro c hc
    simp only [List.mem_append, or_assoc] at hc
    rcases hc with h1 | h2 | h3 | h4
    · obtain ⟨r, f, h⟩ := commitGetSrcContents_fst_sub env cfg d c h1
      subst h; rfl
    · obtain ⟨r, cont, h⟩ := commitPostDestBlobs_fst_sub env cfg d c h2
      subst h; rfl
    · rcases commitGetSrcTrees_fst_sub env cfg d c h3 with ⟨r, h⟩ | ⟨r, s, h⟩ <;>
        (subst h; rfl)
    · obtain ⟨r, es, b, h⟩ := commitPostDestTrees_fst_sub env cfg d c h4
      subst h; rfl
  · intro e he
    obtain ⟨_, hci⟩ := commit_tail_of_commits_error he
    rw [hci]
    refine ⟨rfl, ?_⟩
    apply filter_eq_nil_of
    intro c hc
    simp only [List.mem_append, or_assoc] at hc
    rcases hc with h1 | h2 | h3 | h4 | h5
    · obtain ⟨r, f, h⟩ := commitGetSrcContents_fst_sub env cfg d c h1
      subst h; rfl
    · obtain ⟨r, cont, h⟩ := commitPostDestBlobs_fst_sub env cfg d c h2
      subst h; rfl
    · rcases commitGetSrcTrees_fst_sub env cfg d c h3 with ⟨r, h⟩ | ⟨r, s, h⟩ <;>
        (subst h; rfl)
    · obtain ⟨r, es, b, h⟩ := commitPostDestTrees_fst_sub env cfg d c h4
      subst h; rfl
    · obtain ⟨r, t, p, h⟩ := commitPostDestCommits_fst_sub env cfg d c h5
      subst h; rfl
  · intro e he
    rw [commitInternal_snd_of_branch_error he]
    rfl
  · intro srcBlobs hread hdry b hb hcu
    have hmem : Call.createBlob b.repo b.contentNew ∈
        (commitPostDestBlobs env cfg d).1 := by
      unfold commitPostDestBlobs
      rw [hread]
      exact mem_mapStage_fst.mpr
        ⟨b, hb, by rw [postDestBlobItem_issues env cfg b hcu hdry]; simp⟩
    show Call.createBlob b.repo b.contentNew ∈
      (commitGetSrcContents env cfg d).1 ++ (commitPostDestBlobs env cfg d).1
        ++ (commitGetSrcTrees env cfg d).1 ++ (commitPostDestTrees env cfg d).1
        ++ (commitPostDestCommits env cfg d).1 ++ (commitUpdateBranch env cfg d).1
    simp only [List.mem_append, or_assoc]
    exact Or.inr (Or.inl hmem)

/-- An environment for C7: every file updates to `"NEW"`, and the blob POST
fails for repo `a/x` only. -/
def envBlobFail : Env :=
  { envBase with
    transform := fun _ _ _ => TransformResp.ok (some "NEW")
    createBlobResp := fun r _ =>
      if r == "a/x" then Except.error "blobfail" else Except.ok "SHA_BLOB" }

/-- Config for C7: two repositories. -/
def cfgTwoRepos : Config := { cfgBase with repos := ["a/x", "b/y"] }

/-- Counterexample to C7 as stated: repo `a/x` fails at the blob step while
repo `b/y` had real pending work (its blob was posted), yet `b/y`'s
remaining steps never run — no `createTree`/`createCommit`/`updateRef` call
is issued for it (or anyone). -/
theorem commit_sibling_pipeline_cex :
    resultOk (commitInternal envBlobFail cfgTwoRepos "feature").2 = false ∧
      Call.createBlob "b/y" (some "NEW") ∈ (commitInternal envBlobFail cfgTwoRepos "feature").1 ∧
      (commitInternal envBlobFail cfgTwoRepos "feature").1.filter
        (fun c => c.isCreateTree || c.isCreateCommit || c.isUpdateRef) = [] := by
  decide

/-- The read results produced by `envBlobFail` over `cfgTwoRepos`. -/
def blobFailBlobs : List FileData :=
  [{ repo := "a/x", file := "README.md", branchSrc := "feature", branchDest := none,
     contentOrig := some "hello", contentNew := some "NEW", contentCreate := false,
     contentUpdate := true, contentDelete := false, commitSha := some "SHA_READ" },
   { repo := "b/y", file := "README.md", branchSrc := "feature", branchDest := none,
     contentOrig := some "hello", contentNew := some "NEW", contentCreate := false,
     contentUpdate := true, contentDelete := false, commitSha := some "SHA_READ" }]

/-- An environment in which every update's tree POST fails. -/
def envTreeFail : Env :=
  { envBase with
    transform := fun _ _ _ => TransformResp.ok (some "NEW")
    createTreeResp := fun _ _ _ => Except.error "treefail" }

/-- An environment in which the commit POST fails. -/
def envCommitFail : Env :=
  { envBase with
    transform := fun _ _ _ => TransformResp.ok (some "NEW")
    createCommitResp := fun _ _ _ _ => Except.error "commitfail" }

/-- An environment in which the ref fast-forward fails. -/
def envRefFail : Env :=
  { envBase with
    transform := fun _ _ _ => TransformResp.ok (some "NEW")
    updateRefResp := fun _ _ _ => Except.error "reffail" }

/-- Witness for the amended C7, exercising a failure at each of the four
stages over two repositories, plus the sibling blob POST. -/
theorem commit_stage_failure_stops_all_repos_witness :
    (resultOk (commitInternal envBlobFail cfgTwoRepos "feature").2 = false ∧
        (commitInternal envBlobFail cfgTwoRepos "feature").1.filter
          (fun c => c.isCreateTree || c.isCreateCommit || c.isUpdateRef) = []) ∧
      (resultOk (commitInternal envTreeFail cfgTwoRepos "feature").2 = false ∧
        (commitInternal envTreeFail cfgTwoRepos "feature").1.filter
          (fun c => c.isCreateCommit || c.isUpdateRef) = []) ∧
      (resultOk (commitInternal envCommitFail cfgTwoRepos "feature").2 = false ∧
        (commitInternal envCommitFail cfgTwoRepos "feature").1.filter
          Call.isUpdateRef = []) ∧
      resultOk (commitInternal envRefFail cfgTwoRepos "feature").2 = false ∧
      Call.createBlob "b/y" (some "NEW") ∈
        (commitInternal envBlobFail cfgTwoRepos "feature").1 :=
  ⟨(commit_stage_failure_stops_all_repos envBlobFail cfgTwoRepos "feature").1
      "blobfail" rfl,
    (commit_stage_failure_stops_all_repos envTreeFail cfgTwoRepos "feature").2.1
      "treefail" rfl,
    (commit_stage_failure_stops_all_repos envCommitFail cfgTwoRepos "feature").2.2.1
      "commitfail" rfl,
    (commit_stage_failure_stops_all_repos envRefFail cfgTwoRepos "feature").2.2.2.1
      "reffail" rfl,
    (commit_stage_failure_stops_all_repos envBlobFail cfgTwoRepos "feature").2.2.2.2
      blobFailBlobs rfl rfl
      { repo := "b/y", file := "README.md", branchSrc := "feature", branchDest := none,
        contentOrig := some "hello", contentNew := some "NEW", contentCreate := false,
        contentUpdate := true, contentDelete := false, commitSha := some "SHA_READ" }
      (by decide) rfl⟩

/-- An environment exhibiting C8's dead mismatch check: file `f` updates
(read-time blob sha `"shaREAD"`), file `g` deletes (forcing the
full-tree-rebuild path), and the fetched tree records the *different* sha
`"shaTREE"` for `f`. -/
def envUpdMismatch : Env :=
  { envBase with
    contentResp := fun _ _ _ => ContentResp.ok "hello" "shaREAD"
    transform := fun _ f _ =>
      if f == "g" then TransformResp.ok none else TransformResp.ok (some "HELLO")
    treeResp := fun _ _ => Except.ok
      ([⟨"f", "100644", "blob", "shaTREE"⟩, ⟨"g", "100644", "blob", "shaG"⟩], false) }

/-- **C8 (code bug).** The source's mismatch test reads `destBlob.commit`,
a property the `{blob, posted}` lookup-table records do not have (the
read-time sha lives at `destBlob.blob.commit.sha`), so no mismatch is ever
recorded: the rejection branch of `_createTree` is dead code, and at a
concrete full-rebuild input whose updated file has read-time sha
`"shaREAD"` but tree-entry sha `"shaTREE"` the commit succeeds and posts
the rewritten tree instead of failing with a mismatch error. -/
theorem create_tree_mismatch_check_dead_code :
    (∀ destBlobs srcTree, createTreeMismatches destBlobs srcTree = []) ∧
      resultOk (commitAction envUpdMismatch cfgTrunc).2 = true ∧
      (commitAction envUpdMismatch cfgTrunc).1.filter Call.isCreateTree =
        [Call.createTree "acme/x" [⟨"f", "100644", "blob", "SHA_BLOB"⟩] none] := by
  refine ⟨?_, by decide, by decide⟩
  intro destBlobs srcTree
  apply filter_eq_nil_of
  intro sb _
  cases htb : treeBlobLookup (treeBlobsFor destBlobs srcTree.repo) sb.path with
  | none => simp [htb]
  | some db => simp [htb, BlobPost.commit]

/-! ## Dry-run: every mutation point is short-circuited -/

theorem postDestBlobItem_fst_dryRun (env : Env) (cfg : Config) (blob : FileData)
    (hdry : cfg.dryRun = true) : (postDestBlobItem env cfg blob).1 = [] := by
  simp only [postDestBlobItem]
  repeat' split
  all_goals rfl

theorem updateTreeStep_fst_dryRun (env : Env) (cfg : Config) (destBlobs : List BlobPost)
    (srcTree : SrcTree) (hdry : cfg.dryRun = true) :
    (updateTreeStep env cfg destBlobs srcTree).1 = [] := by
  simp only [updateTreeStep]
  repeat' split
  all_goals rfl

theorem createTreeStep_fst_dryRun (env : Env) (cfg : Config) (destBlobs : List BlobPost)
    (srcTree : SrcTree) (hdry : cfg.dryRun = true) :
    (createTreeStep env cfg destBlobs srcTree).1 = [] := by
  simp only [createTreeStep]
  repeat' split
  all_goals rfl

theorem postDestTreeItem_fst_dryRun (env : Env) (cfg : Config) (destBlobs : List BlobPost)
    (srcTree : SrcTree) (hdry : cfg.dryRun = true) :
    (postDestTreeItem env cfg destBlobs srcTree).1 = [] := by
  unfold postDestTreeItem
  split
  · exact createTreeStep_fst_dryRun env cfg destBlobs srcTree hdry
  · exact updateTreeStep_fst_dryRun env cfg destBlobs srcTree hdry

theorem postDestCommitItem_fst_dryRun (env : Env) (cfg : Config) (destTree : DestTree)
    (hdry : cfg.dryRun = true) : (postDestCommitItem env cfg destTree).1 = [] := by
  simp only [postDestCommitItem]
  repeat' split
  all_goals rfl

theorem updateBranchItem_fst_dryRun (env : Env) (cfg : Config) (full : String)
    (destCommit : DestCommit) (hdry : cfg.dryRun = true) :
    (updateBranchItem env cfg full destCommit).1 = [] := by
  simp only [updateBranchItem]
  repeat' split
  all_goals rfl

theorem createDestRefItem_fst_dryRun (env : Env) (cfg : Config) (full : String)
    (srcRefs : List SrcRefInfo) (destRefs : List DestRefInfo) (repo : String)
    (hdry : cfg.dryRun = true) :
    (createDestRefItem env cfg full srcRefs destRefs repo).1 = [] := by
  simp only [createDestRefItem]
  repeat' split
  all_goals rfl

/-- **C6.** With `dryRun = true`, no mutating remote call is ever issued by
any action; mutation points return sentinel values instead (shown here for
the pull-request sentinel), while read and validation logic still runs. -/
theorem dry_run_no_mutations (env : Env) (cfg : Config) (hdry : cfg.dryRun = true) :
    (readAction env cfg).1.filter Call.isMutation = [] ∧
      (branchInternal env cfg).1.filter Call.isMutation = [] ∧
      (∀ d, (commitInternal env cfg d).1.filter Call.isMutation = []) ∧
      (pullRequestInternal env cfg).1.filter Call.isMutation = [] ∧
      (branchToPrAction env cfg).1.filter Call.isMutation = [] ∧
      ∀ repo, pullRequestItem env cfg repo =
        ([], Except.ok ⟨repo, cfg.branchSrc, cfg.branchDest,
          some "DRY_RUN_CREATE_PR_HTML_URL", false, some "DRY_RUN_CREATE_PR_SHA"⟩) := by
  have hReadF : ∀ b, (readStage env cfg b).1.filter Call.isMutation = [] := by
    intro b
    apply filter_eq_nil_of
    intro c hc
    obtain ⟨r, f, h⟩ := readStage_fst_sub env cfg b c hc
    subst h; rfl
  have hBlobs : ∀ d, (commitPostDestBlobs env cfg d).1 = [] := by
    intro d
    unfold commitPostDestBlobs
    split
    · rfl
    · exact mapStage_fst_pointwise (fun b _ => postDestBlobItem_fst_dryRun env cfg b hdry)
  have hTreesF : ∀ d, (commitGetSrcTrees env cfg d).1.filter Call.isMutation = [] := by
    intro d
    apply filter_eq_nil_of
    intro c hc
    rcases commitGetSrcTrees_fst_sub env cfg d c hc with ⟨r, h⟩ | ⟨r, s, h⟩ <;>
      (subst h; rfl)
  have hDTrees : ∀ d, (commitPostDestTrees env cfg d).1 = [] := by
    intro d
    unfold commitPostDestTrees
    split
    · exact mapStage_fst_pointwise
        (fun st _ => postDestTreeItem_fst_dryRun env cfg _ st hdry)
    · rfl
    · rfl
  have hCommits : ∀ d, (commitPostDestCommits env cfg d).1 = [] := by
    intro d
    unfold commitPostDestCommits
    split
    · rfl
    · exact mapStage_fst_pointwise (fun dt _ => postDestCommitItem_fst_dryRun env cfg dt hdry)
  have hUpd : ∀ d, (commitUpdateBranch env cfg d).1 = [] := by
    intro d
    unfold commitUpdateBranch
    split
    · rfl
    · exact mapStage_fst_pointwise
        (fun dc _ => updateBranchItem_fst_dryRun env cfg _ dc hdry)
  have hCommitF : ∀ d, (commitInternal env cfg d).1.filter Call.isMutation = [] := by
    intro d
    show ((readStage env cfg d).1 ++ (commitPostDestBlobs env cfg d).1
      ++ (commitGetSrcTrees env cfg d).1 ++ (commitPostDestTrees env cfg d).1
      ++ (commitPostDestCommits env cfg d).1
      ++ (commitUpdateBranch env cfg d).1).filter Call.isMutation = []
    rw [hBlobs d, hDTrees d, hCommits d, hUpd d]
    simp only [List.append_nil]
    rw [List.filter_append, hReadF d, hTreesF d]
    rfl
  have hBranchF : (branchInternal env cfg).1.filter Call.isMutation = [] := by
    show ((branchGetSrcRefs env cfg).1 ++ (branchGetDestRefs env cfg).1
      ++ (branchCreateDestRefs env cfg).1).filter Call.isMutation = []
    have hcr : (branchCreateDestRefs env cfg).1 = [] := by
      unfold branchCreateDestRefs
      split
      · exact mapStage_fst_pointwise
          (fun r _ => createDestRefItem_fst_dryRun env cfg _ _ _ r hdry)
      · rfl
      · rfl
    rw [hcr]
    simp only [List.append_nil]
    rw [List.filter_append]
    have h1 : (branchGetSrcRefs env cfg).1.filter Call.isMutation = [] := by
      apply filter_eq_nil_of
      intro c hc
      obtain ⟨r, h⟩ := branchGetSrcRefs_fst_sub env cfg c hc
      subst h; rfl
    have h2 : (branchGetDestRefs env cfg).1.filter Call.isMutation = [] := by
      apply filter_eq_nil_of
      intro c hc
      obtain ⟨r, h⟩ := branchGetDestRefs_fst_sub env cfg c hc
      subst h; rfl
    rw [h1, h2]
    rfl
  have hPrF : (pullRequestInternal env cfg).1.filter Call.isMutation = [] := by
    have h : (pullRequestInternal env cfg).1 = [] :=
      mapStage_fst_pointwise (fun r _ => by simp [pullRequestItem, hdry])
    rw [h]
    rfl
  have hB2PCommitF : (branchToPrCommit env cfg).1.filter Call.isMutation = [] := by
    unfold branchToPrCommit
    split
    · rfl
    · exact hCommitF _
  have hB2PPrF : (branchToPrPr env cfg).1.filter Call.isMutation = [] := by
    unfold branchToPrPr
    split
    · rfl
    · exact hPrF
  have hB2PF : (branchToPrAction env cfg).1.filter Call.isMutation = [] := by
    show ((branchInternal env cfg).1 ++ (branchToPrCommit env cfg).1
      ++ (branchToPrPr env cfg).1).filter Call.isMutation = []
    rw [List.filter_append, List.filter_append, hBranchF, hB2PCommitF, hB2PPrF]
    rfl
  refine ⟨hReadF cfg.branchSrc, hBranchF, hCommitF, hPrF, hB2PF, ?_⟩
  intro repo
  simp [pullRequestItem, hdry]

/-- `cfgBase` in dry-run mode. -/
def cfgDry : Config := { cfgBase with dryRun := true }

/-- Witness for C6 at concrete inputs: every action's trace is free of
mutating calls and the PR mutation point returns the sentinel record. -/
theorem dry_run_no_mutations_witness :
    (readAction envBase cfgDry).1.filter Call.isMutation = [] ∧
      (branchInternal envBase cfgDry).1.filter Call.isMutation = [] ∧
      (commitInternal envBase cfgDry "feature").1.filter Call.isMutation = [] ∧
      (pullRequestInternal envBase cfgDry).1.filter Call.isMutation = [] ∧
      (branchToPrAction envBase cfgDry).1.filter Call.isMutation = [] ∧
      pullRequestItem envBase cfgDry "acme/x" =
        ([], Except.ok ⟨"acme/x", "master", "feature",
          some "DRY_RUN_CREATE_PR_HTML_URL", false, some "DRY_RUN_CREATE_PR_SHA"⟩) := by
  have h := dry_run_no_mutations envBase cfgDry rfl
  exact ⟨h.1, h.2.1, h.2.2.1 "feature", h.2.2.2.1, h.2.2.2.2.1, h.2.2.2.2.2 "acme/x"⟩

/-- **C3.** For a commit batch in which every file's transform is a no-op
(`newContent = origContent`, so nothing is a create, update-changed or
delete): no blob is posted, every per-repository tree result has
`isNoop = true`, and no `createTree`, `createCommit` or `updateRef` call is
issued; the action succeeds. -/
theorem commit_noop_batch (env : Env) (cfg : Config) (srcBlobs : List FileData)
    (hread : (commitGetSrcContents env cfg cfg.branchDest).2 = Except.ok srcBlobs)
    (hnoop : ∀ b ∈ srcBlobs, b.contentNew = b.contentOrig)
    (hrefs : ∀ r ∈ cfg.repos, ∃ s,
      env.refResp r ("heads/" ++ cfg.branchDest) = RefResp.ok s) :
    resultOk (commitAction env cfg).2 = true ∧
      (∀ dts, (commitPostDestTrees env cfg cfg.branchDest).2 = Except.ok dts →
        ∀ t ∈ dts, t.isNoop = true) ∧
      (commitAction env cfg).1.filter
        (fun c => c.isCreateBlob || c.isCreateTree || c.isCreateCommit ||
          c.isUpdateRef) = [] := by
  have hflags : ∀ b ∈ srcBlobs, b.contentCreate = false ∧ b.contentUpdate = false ∧
      b.contentDelete = false := by
    intro b hb
    obtain ⟨lk, _, hok⟩ := mapStage_ok_mem hread hb
    obtain ⟨h1, h2, h3, h4⟩ := readItem_ok_flags hok
    have heq := hnoop b hb
    rw [heq, Bool.and_self] at h4
    refine ⟨by rw [h1, h4], ?_, by rw [h3, heq, h4]⟩
    rw [h2, heq]
    simp
  have hBlobs : commitPostDestBlobs env cfg cfg.branchDest =
      ([], Except.ok (srcBlobs.map (fun b => (⟨b, false, none⟩ : BlobPost)))) := by
    unfold commitPostDestBlobs
    rw [hread]
    apply mapStage_pointwise
    intro b hb
    obtain ⟨hc, hu, _⟩ := hflags b hb
    simp [postDestBlobItem, hc, hu]
  have hb2 : (commitPostDestBlobs env cfg cfg.branchDest).2 =
      Except.ok (srcBlobs.map (fun b => (⟨b, false, none⟩ : BlobPost))) := by
    rw [hBlobs]
  have hdelF : ∀ r, hasDeleteFor srcBlobs r = false := by
    intro r
    unfold hasDeleteFor
    rw [filter_eq_nil_of (fun b hb => by simp [(hflags b hb).2.2])]
    rfl
  obtain ⟨srcTrees, hTrees⟩ :
      ∃ ys, (mapStage (getSrcTreeItem env ("heads/" ++ cfg.branchDest) srcBlobs)
        cfg.repos).2 = Except.ok ys := by
    apply mapStage_ok_of_all
    intro r hr
    obtain ⟨s, hs⟩ := hrefs r hr
    exact ⟨⟨r, s, none, false⟩, by simp [getSrcTreeItem, hs, hdelF r]⟩
  have hTreesStage : (commitGetSrcTrees env cfg cfg.branchDest).2 = Except.ok srcTrees := by
    unfold commitGetSrcTrees
    rw [hread]
    exact hTrees
  have hstChar : ∀ st ∈ srcTrees, st.hasDelete = false := by
    intro st hst
    obtain ⟨r, _, hok⟩ := mapStage_ok_mem hTrees hst
    exact (getSrcTreeItem_no_delete (hdelF r) hok).1
  have hDTrees : commitPostDestTrees env cfg cfg.branchDest =
      ([], Except.ok (srcTrees.map
        (fun st => (⟨st.repo, [], st.ref, none, true⟩ : DestTree)))) := by
    unfold commitPostDestTrees
    rw [hb2, hTreesStage]
    apply mapStage_pointwise
    intro st hst
    have hupd : updateTreeList
        (srcBlobs.map (fun b => (⟨b, false, none⟩ : BlobPost))) st.repo = [] := by
      unfold updateTreeList
      rw [filter_eq_nil_of]
      · rfl
      · intro bp hbp
        obtain ⟨b, _, hb⟩ := List.mem_map.mp hbp
        rw [← hb]
        simp
    unfold postDestTreeItem
    rw [hstChar st hst]
    simp [updateTreeStep, hupd]
  have hd2 : (commitPostDestTrees env cfg cfg.branchDest).2 =
      Except.ok (srcTrees.map
        (fun st => (⟨st.repo, [], st.ref, none, true⟩ : DestTree))) := by
    rw [hDTrees]
  have hCommits : commitPostDestCommits env cfg cfg.branchDest =
      ([], Except.ok ((srcTrees.map
          (fun st => (⟨st.repo, [], st.ref, none, true⟩ : DestTree))).map
        (fun dt => (⟨dt.repo, dt.parentSha, none, true⟩ : DestCommit)))) := by
    unfold commitPostDestCommits
    rw [hd2]
    apply mapStage_pointwise
    intro dt hdt
    obtain ⟨st, _, hst⟩ := List.mem_map.mp hdt
    have hno : dt.isNoop = true := by rw [← hst]
    simp [postDestCommitItem, hno]
  have hc2 : (commitPostDestCommits env cfg cfg.branchDest).2 =
      Except.ok ((srcTrees.map
          (fun st => (⟨st.repo, [], st.ref, none, true⟩ : DestTree))).map
        (fun dt => (⟨dt.repo, dt.parentSha, none, true⟩ : DestCommit))) := by
    rw [hCommits]
  have hUpd : commitUpdateBranch env cfg cfg.branchDest =
      ([], Except.ok (((srcTrees.map
            (fun st => (⟨st.repo, [], st.ref, none, true⟩ : DestTree))).map
          (fun dt => (⟨dt.repo, dt.parentSha, none, true⟩ : DestCommit))).map
        (fun dc => (⟨dc.repo, none, true⟩ : BranchUpdate)))) := by
    unfold commitUpdateBranch
    rw [hc2]
    apply mapStage_pointwise
    intro dc hdc
    obtain ⟨dt, _, hdt⟩ := List.mem_map.mp hdc
    have hno : dc.isNoop = true := by rw [← hdt]
    simp [updateBranchItem, hno]
  have hu2 : (commitUpdateBranch env cfg cfg.branchDest).2 =
      Except.ok (((srcTrees.map
            (fun st => (⟨st.repo, [], st.ref, none, true⟩ : DestTree))).map
          (fun dt => (⟨dt.repo, dt.parentSha, none, true⟩ : DestCommit))).map
        (fun dc => (⟨dc.repo, none, true⟩ : BranchUpdate))) := by
    rw [hUpd]
  refine ⟨?_, ?_, ?_⟩
  · simp only [commitAction, commitInternal]
    rw [hu2, hb2]
    rfl
  · intro dts hdts
    rw [hd2] at hdts
    injection hdts with hdts
    subst hdts
    intro t ht
    obtain ⟨st, _, hst⟩ := List.mem_map.mp ht
    rw [← hst]
  · show ((commitGetSrcContents env cfg cfg.branchDest).1
      ++ (commitPostDestBlobs env cfg cfg.branchDest).1
      ++ (commitGetSrcTrees env cfg cfg.branchDest).1
      ++ (commitPostDestTrees env cfg cfg.branchDest).1
      ++ (commitPostDestCommits env cfg cfg.branchDest).1
      ++ (commitUpdateBranch env cfg cfg.branchDest).1).filter
        (fun c => c.isCreateBlob || c.isCreateTree || c.isCreateCommit ||
          c.isUpdateRef) = []
    rw [hBlobs, hDTrees, hCommits, hUpd]
    simp only [List.append_nil]
    rw [List.filter_append]
    have h1 : (commitGetSrcContents env cfg cfg.branchDest).1.filter
        (fun c => c.isCreateBlob || c.isCreateTree || c.isCreateCommit ||
          c.isUpdateRef) = [] := by
      apply filter_eq_nil_of
      intro c hc
      obtain ⟨r, f, h⟩ := commitGetSrcContents_fst_sub env cfg cfg.branchDest c hc
      subst h; rfl
    have h3 : (commitGetSrcTrees env cfg cfg.branchDest).1.filter
        (fun c => c.isCreateBlob || c.isCreateTree || c.isCreateCommit ||
          c.isUpdateRef) = [] := by
      apply filter_eq_nil_of
      intro c hc
      rcases commitGetSrcTrees_fst_sub env cfg cfg.branchDest c hc with ⟨r, h⟩ | ⟨r, s, h⟩ <;>
        (subst h; rfl)
    rw [h1, h3]
    rfl

/-- An environment whose transform returns the original content unchanged. -/
def envNoop : Env :=
  { envBase with transform := fun _ _ c => TransformResp.ok c }

/-- The read results produced by `envNoop` over `cfgBase` at `"feature"`. -/
def noopBlobs : List FileData :=
  [{ repo := "acme/x", file := "README.md", branchSrc := "feature", branchDest := none,
     contentOrig := some "hello", contentNew := some "hello", contentCreate := false,
     contentUpdate := false, contentDelete := false, commitSha := some "SHA_READ" }]

/-- Witness for C3 at a concrete input. -/
theorem commit_noop_batch_witness :
    resultOk (commitAction envNoop cfgBase).2 = true ∧
      (∀ dts, (commitPostDestTrees envNoop cfgBase cfgBase.branchDest).2 = Except.ok dts →
        ∀ t ∈ dts, t.isNoop = true) ∧
      (commitAction envNoop cfgBase).1.filter
        (fun c => c.isCreateBlob || c.isCreateTree || c.isCreateCommit ||
          c.isUpdateRef) = [] :=
  commit_noop_batch envNoop cfgBase noopBlobs rfl (by decide)
    (fun r _ => ⟨"SHA_REF", rfl⟩)

/-- An environment in which no file exists and the transform deletes. -/
def envCreateDelete : Env :=
  { envBase with
    contentResp := fun _ _ _ => ContentResp.notFound
    transform := fun _ _ _ => TransformResp.ok none }

/-- Witness for C2 at a concrete input. -/
theorem read_create_delete_policy_witness :
    (readItem envCreateDelete "feature" ⟨"acme/x", "README.md"⟩).2 =
        Except.error "Cannot have both create + delete" ∧
      resultOk (readStage envCreateDelete cfgBase "feature").2 = false ∧
      resultOk (commitInternal envCreateDelete cfgBase "feature").2 = false ∧
      (commitInternal envCreateDelete cfgBase "feature").1.filter Call.isMutation = [] :=
  read_create_delete_policy envCreateDelete cfgBase "feature" ⟨"acme/x", "README.md"⟩
    (by decide) rfl rfl

/-- **C5.** The standalone commit action reads file contents from the
destination branch: every `getContent` it issues carries the destination
ref, and the read stage applies the transform to the content currently on
the destination branch — so a second run transforms the already-updated
content, not the original. -/
theorem commit_reads_destination_branch (env env2 : Env) (cfg : Config) (lk : Lookup)
    (y sha2 z : String)
    (hc2 : env2.contentResp lk.repo lk.file cfg.branchDest = ContentResp.ok y sha2)
    (ht2 : env2.transform lk.repo lk.file (some y) = TransformResp.ok (some z)) :
    (∀ r f ref, Call.getContent r f ref ∈ (commitAction env cfg).1 →
      ref = cfg.branchDest) ∧
      ∃ d, (readItem env2 cfg.branchDest lk).2 = Except.ok d ∧
        d.contentOrig = some y ∧ d.contentNew = some z := by
  constructor
  · exact commitInternal_fst_getContent env cfg cfg.branchDest
  · simp [readItem, hc2, ht2]

/-- Witness for C5 at a concrete input. -/
theorem commit_reads_destination_branch_witness :
    (∀ r f ref, Call.getContent r f ref ∈ (commitAction envBase cfgBase).1 →
      ref = cfgBase.branchDest) ∧
      ∃ d, (readItem envBase cfgBase.branchDest ⟨"acme/x", "README.md"⟩).2 =
          Except.ok d ∧
        d.contentOrig = some "hello" ∧ d.contentNew = some "HELLO" :=
  commit_reads_destination_branch envBase envBase cfgBase ⟨"acme/x", "README.md"⟩
    "hello" "SHA_READ" "HELLO" rfl rfl

/-- **C10.** A successful read returns exactly one entry per (repo, file)
pair, ordered repo-major in the given repo order and file-minor in the
given file order; and assembling the parallel fetches in any completion
order that covers all indices yields the same, input-indexed result list. -/
theorem read_results_cross_product_order (env : Env) (cfg : Config) (b : String) :
    (∀ rs, (readStage env cfg b).2 = Except.ok rs →
      rs.map (fun d => (d.repo, d.file)) =
        (cfg.repos.map (fun r => cfg.files.map (fun f => (r, f)))).flatten) ∧
      ∀ order : List Nat, (∀ i, i < (lookups cfg).length → i ∈ order) →
        (List.range (lookups cfg).length).map
          (scatterRun (fun i => readItem env b ((lookups cfg).getD i ⟨"", ""⟩)) order
            (fun _ => none)) =
        (lookups cfg).map (fun lk => some (readItem env b lk)) := by
  constructor
  · intro rs hok
    have hcoll : ((lookups cfg).map (readItem env b)).map Prod.snd =
        rs.map Except.ok := collectExcept_ok_eq hok
    have hmain : rs.map (fun d => (d.repo, d.file)) =
        (lookups cfg).map (fun lk => (lk.repo, lk.file)) := by
      apply map_snd_ok_proj hcoll
      intro lk d hd
      obtain ⟨h1, h2⟩ := readItem_ok_ids hd
      rw [h1, h2]
    rw [hmain]
    simp only [lookups, List.map_flatten, List.map_map]
    refine congrArg List.flatten ?_
    apply List.map_congr_left
    intro r _
    simp
  · intro order hcov
    rw [List.map_congr_left (fun i hi =>
      scatterRun_eq_of_mem order _ i (Or.inl (hcov i (List.mem_range.mp hi))))]
    rw [map_eq_range_map (fun lk => some (readItem env b lk)) ⟨"", ""⟩ (lookups cfg)]

/-- The read results over two repositories at branch `"master"`. -/
def readTwoBlobs : List FileData :=
  [{ repo := "a/x", file := "README.md", branchSrc := "master", branchDest := none,
     contentOrig := some "hello", contentNew := some "HELLO", contentCreate := false,
     contentUpdate := true, contentDelete := false, commitSha := some "SHA_READ" },
   { repo := "b/y", file := "README.md", branchSrc := "master", branchDest := none,
     contentOrig := some "hello", contentNew := some "HELLO", contentCreate := false,
     contentUpdate := true, contentDelete := false, commitSha := some "SHA_READ" }]

/-- Witness for C10 at a concrete input, with the reversed completion order
`[1, 0]`. -/
theorem read_results_cross_product_order_witness :
    readTwoBlobs.map (fun d => (d.repo, d.file)) =
        (cfgTwoRepos.repos.map (fun r => cfgTwoRepos.files.map (fun f => (r, f)))).flatten ∧
      (List.range (lookups cfgTwoRepos).length).map
        (scatterRun (fun i => readItem envBase "master" ((lookups cfgTwoRepos).getD i ⟨"", ""⟩))
          [1, 0] (fun _ => none)) =
      (lookups cfgTwoRepos).map (fun lk => some (readItem envBase "master" lk)) :=
  ⟨(read_results_cross_product_order envBase cfgTwoRepos "master").1 readTwoBlobs rfl,
    (read_results_cross_product_order envBase cfgTwoRepos "master").2 [1, 0] (by decide)⟩

end Multibot
